import Mathlib

/-!
Verification of the json_schema_builder property-tree / schema-transform engine.

Shallow embedding of the core of the repository:
* `src/utils/validation.ts` (key/type/value validation, value coercion, depth and
  parent-chain walks),
* `src/utils/schemaTransform.ts` (`propertiesToSchema`, `schemaToProperties`,
  `formatJSON`),
* `src/store/useSchemaStore.ts` (the zustand store operations).

JavaScript values are modelled by `JsonValue` (with `Option JsonValue` standing for
possibly-`undefined` values: `none` is `undefined`, `some .null` is `null`).
JS numbers are modelled as integers: non-integer numeric literals are out of scope
of this development (no claim depends on them).  `bigint` is included because
`JSON.stringify` throws on it, which is the one representable way serialization
can fail.
-/

/-- A JavaScript runtime value as far as this program manipulates them. -/
inductive JsonValue where
  | str (s : String)
  | num (n : Int)
  | bool (b : Bool)
  | null
  | arr (elems : List JsonValue)
  | obj (fields : List (String × JsonValue))
  | bigint (n : Int)

/-- The six recognized property types (`src/types`). -/
inductive PropertyType where
  | string | number | boolean | object | array | null
deriving DecidableEq, Repr

/-- A `Property` record (`src/types`): `value` is `Option JsonValue` with `none` for
`undefined` and `some .null` for `null`; the `properties` field is the informational
child list and `items` the optional array item schema, both recursive. -/
inductive Property where
  | mk (id : String) (key : String) (description : String) (type : PropertyType)
       (value : Option JsonValue) (required : Bool) (parentId : Option String)
       (properties : List Property) (items : Option Property)

def Property.id : Property → String
  | .mk i _ _ _ _ _ _ _ _ => i

def Property.key : Property → String
  | .mk _ k _ _ _ _ _ _ _ => k

def Property.description : Property → String
  | .mk _ _ d _ _ _ _ _ _ => d

def Property.type : Property → PropertyType
  | .mk _ _ _ t _ _ _ _ _ => t

def Property.value : Property → Option JsonValue
  | .mk _ _ _ _ v _ _ _ _ => v

def Property.required : Property → Bool
  | .mk _ _ _ _ _ r _ _ _ => r

def Property.parentId : Property → Option String
  | .mk _ _ _ _ _ _ p _ _ => p

def Property.properties : Property → List Property
  | .mk _ _ _ _ _ _ _ ps _ => ps

def Property.items : Property → Option Property
  | .mk _ _ _ _ _ _ _ _ it => it

/-! ## JavaScript primitive coercions

`Number`, `String` and `Boolean` as used by `src/utils/validation.ts`.  Numbers are
modelled as integers; a numeric literal that is not an optionally-signed integer is
treated as `NaN` (`none`). -/

/-- `String.prototype.trim()`: strip whitespace from both ends (structural, so it
evaluates in the kernel; Lean's `String.trim` is well-founded and does not). -/
def jsTrim (s : String) : String :=
  String.mk (((s.data.dropWhile Char.isWhitespace).reverse.dropWhile
    Char.isWhitespace).reverse)

/-- `String.prototype.toLowerCase()` (ASCII). -/
def jsToLower (s : String) : String :=
  String.mk (s.data.map Char.toLower)

/-- `String.prototype.startsWith(c)` for a one-character prefix. -/
def startsWithChar (s : String) (c : Char) : Bool :=
  s.data.head? == some c

/-- `String.prototype.split(",")`. -/
def splitOnCommaGo : List Char → List Char → List String
  | [], acc => [String.mk acc.reverse]
  | c :: rest, acc =>
    if c == ',' then String.mk acc.reverse :: splitOnCommaGo rest []
    else splitOnCommaGo rest (c :: acc)

def splitOnComma (s : String) : List String :=
  splitOnCommaGo s.data []

/-- Parse a non-empty all-digit string. -/
def parseDigits : List Char → Option Nat
  | [] => none
  | cs =>
    if cs.all Char.isDigit then
      some (cs.foldl (fun n c => n * 10 + (c.toNat - '0'.toNat)) 0)
    else none

/-- `Number(s)` for a string `s` (integer fragment): trims, empty means `0`,
optionally signed digits, anything else is `NaN` (`none`). -/
def jsStringToNumber (s : String) : Option Int :=
  let t := jsTrim s
  if t = "" then some 0
  else
    match t.data with
    | '-' :: rest => (parseDigits rest).map (fun n => -(n : Int))
    | '+' :: rest => (parseDigits rest).map (fun n => (n : Int))
    | ds => (parseDigits ds).map (fun n => (n : Int))

mutual
/-- `String(v)` for an array element (`Array.prototype.join`): `null` renders as
the empty string. -/
def jsElemStr : JsonValue → String
  | .str s => s
  | .num n => toString n
  | .bool b => cond b "true" "false"
  | .null => ""
  | .bigint n => toString n
  | .obj _ => "[object Object]"
  | .arr xs => jsArrJoin xs

/-- `Array.prototype.toString`: elements joined with commas. -/
def jsArrJoin : List JsonValue → String
  | [] => ""
  | [x] => jsElemStr x
  | x :: y :: xs => jsElemStr x ++ "," ++ jsArrJoin (y :: xs)
end

/-- `String(v)`. -/
def jsToString : JsonValue → String
  | .null => "null"
  | .str s => s
  | .num n => toString n
  | .bool b => cond b "true" "false"
  | .bigint n => toString n
  | .obj _ => "[object Object]"
  | .arr xs => jsArrJoin xs

/-- `Number(v)`: arrays convert through their string form, plain objects are `NaN`. -/
def jsToNumber : JsonValue → Option Int
  | .null => some 0
  | .bool b => some (cond b 1 0)
  | .num n => some n
  | .bigint n => some n
  | .str s => jsStringToNumber s
  | .obj _ => none
  | .arr xs => jsStringToNumber (jsArrJoin xs)

/-- `Boolean(v)` (JS truthiness of a defined value). -/
def jsBoolean : JsonValue → Bool
  | .str s => !(s == "")
  | .num n => !(n == 0)
  | .bool b => b
  | .null => false
  | .arr _ => true
  | .obj _ => true
  | .bigint n => !(n == 0)

/-! ## JSON.parse

A fuel-driven recursive-descent parser producing `JsonValue`.  JSON numbers are
supported in their integer form only (a fraction or exponent part makes the parse
fail in this model).  Duplicate object keys overwrite the first occurrence's value,
as in JavaScript. -/

/-- JS object/map assignment `m[k] = v`: overwrite in place or append. -/
def jsObjSet (m : List (String × α)) (k : String) (v : α) : List (String × α) :=
  if m.any (fun kv => kv.1 == k) then
    m.map (fun kv => if kv.1 == k then (k, v) else kv)
  else m ++ [(k, v)]

def isJsonWs (c : Char) : Bool :=
  c == ' ' || c == '\t' || c == '\n' || c == '\r'

def skipWs (cs : List Char) : List Char := cs.dropWhile isJsonWs

/-- ASCII hexadecimal digit test. -/
def isHexDig (c : Char) : Bool :=
  c.isDigit || ('a' ≤ c && c ≤ 'f') || ('A' ≤ c && c ≤ 'F')

/-- Parse the body of a JSON string literal (after the opening quote). -/
def parseStringBody : Nat → List Char → Option (String × List Char)
  | 0, _ => none
  | _ + 1, [] => none
  | fuel + 1, c :: rest =>
    if c == '"' then some ("", rest)
    else if c == '\\' then
      match rest with
      | [] => none
      | e :: rest' =>
        let esc : Option (String × List Char) :=
          if e == '"' then some ("\"", rest')
          else if e == '\\' then some ("\\", rest')
          else if e == '/' then some ("/", rest')
          else if e == 'n' then some ("\n", rest')
          else if e == 't' then some ("\t", rest')
          else if e == 'r' then some ("\r", rest')
          else if e == 'b' then some ("\x08", rest')
          else if e == 'f' then some ("\x0c", rest')
          else if e == 'u' then
            match rest' with
            | a :: b :: c' :: d :: rest'' =>
              if isHexDig a && isHexDig b && isHexDig c' && isHexDig d then
                let n := [a, b, c', d].foldl (fun n h =>
                  n * 16 + (if h.isDigit then h.toNat - '0'.toNat
                            else if h ≤ 'F' then h.toNat - 'A'.toNat + 10
                            else h.toNat - 'a'.toNat + 10)) 0
                some (String.mk [Char.ofNat n], rest'')
              else none
            | _ => none
          else none
        match esc with
        | none => none
        | some (piece, rest'') =>
          (parseStringBody fuel rest'').map (fun (s, r) => (piece ++ s, r))
    else if c.toNat < 32 then none
    else (parseStringBody fuel rest).map (fun (s, r) => (String.mk [c] ++ s, r))

/-- Parse a JSON number (integer form only). -/
def parseJsonNumber (cs : List Char) : Option (JsonValue × List Char) :=
  let (neg, cs₁) := match cs with
    | '-' :: rest => (true, rest)
    | _ => (false, cs)
  let digits := cs₁.takeWhile Char.isDigit
  let rest := cs₁.dropWhile Char.isDigit
  if digits = [] then none
  else if digits.length > 1 && digits.head? = some '0' then none
  else
    match rest with
    | '.' :: _ => none
    | 'e' :: _ => none
    | 'E' :: _ => none
    | _ =>
      let n : Int := digits.foldl (fun n c => n * 10 + (c.toNat - '0'.toNat : Nat)) (0 : Int)
      some (.num (if neg then -n else n), rest)

mutual
def parseJsonValue : Nat → List Char → Option (JsonValue × List Char)
  | 0, _ => none
  | fuel + 1, cs =>
    match skipWs cs with
    | 'n' :: 'u' :: 'l' :: 'l' :: rest => some (.null, rest)
    | 't' :: 'r' :: 'u' :: 'e' :: rest => some (.bool true, rest)
    | 'f' :: 'a' :: 'l' :: 's' :: 'e' :: rest => some (.bool false, rest)
    | '"' :: rest => (parseStringBody (fuel + 1) rest).map (fun (s, r) => (.str s, r))
    | '[' :: rest =>
      (match skipWs rest with
       | ']' :: rest' => some (.arr [], rest')
       | _ => (parseJsonItems fuel rest).map (fun (xs, r) => (.arr xs, r)))
    | '{' :: rest =>
      (match skipWs rest with
       | '}' :: rest' => some (.obj [], rest')
       | _ => (parseJsonFields fuel rest []).map (fun (fs, r) => (.obj fs, r)))
    | cs' => parseJsonNumber cs'

def parseJsonItems : Nat → List Char → Option (List JsonValue × List Char)
  | 0, _ => none
  | fuel + 1, cs =>
    match parseJsonValue fuel cs with
    | none => none
    | some (v, rest) =>
      match skipWs rest with
      | ',' :: rest' =>
        (parseJsonItems fuel rest').map (fun (xs, r) => (v :: xs, r))
      | ']' :: rest' => some ([v], rest')
      | _ => none

def parseJsonFields : Nat → List Char → List (String × JsonValue) →
    Option (List (String × JsonValue) × List Char)
  | 0, _, _ => none
  | fuel + 1, cs, acc =>
    match skipWs cs with
    | '"' :: rest =>
      match parseStringBody (fuel + 1) rest with
      | none => none
      | some (k, rest₁) =>
        match skipWs rest₁ with
        | ':' :: rest₂ =>
          match parseJsonValue fuel rest₂ with
          | none => none
          | some (v, rest₃) =>
            let acc' := jsObjSet acc k v
            match skipWs rest₃ with
            | ',' :: rest₄ => parseJsonFields fuel rest₄ acc'
            | '}' :: rest₄ => some (acc', rest₄)
            | _ => none
        | _ => none
    | _ => none
end

/-- `JSON.parse(s)`: `none` when the parse throws. -/
def jsonParse (s : String) : Option JsonValue :=
  match parseJsonValue (s.length * 2 + 8) s.data with
  | some (v, rest) => if skipWs rest = [] then some v else none
  | none => none

/-! ## JSON.stringify (2-space pretty printing)

`JSON.stringify(v, null, 2)`.  The result is `none` exactly when the value contains
a `bigint`, the one representable JS value on which `JSON.stringify` throws. -/

def hexDigitChar (n : Nat) : Char :=
  if n < 10 then Char.ofNat ('0'.toNat + n) else Char.ofNat ('a'.toNat + n - 10)

def escJsonChar (c : Char) : String :=
  if c == '"' then "\\\""
  else if c == '\\' then "\\\\"
  else if c == '\n' then "\\n"
  else if c == '\t' then "\\t"
  else if c == '\r' then "\\r"
  else if c == '\x08' then "\\b"
  else if c == '\x0c' then "\\f"
  else if c.toNat < 32 then
    "\\u00" ++ String.mk [hexDigitChar (c.toNat / 16), hexDigitChar (c.toNat % 16)]
  else String.mk [c]

def quoteJson (s : String) : String :=
  "\"" ++ String.join (s.data.map escJsonChar) ++ "\""

def indentOf (lvl : Nat) : String := String.mk (List.replicate (2 * lvl) ' ')

def joinSep (sep : String) : List String → String
  | [] => ""
  | [x] => x
  | x :: y :: xs => x ++ sep ++ joinSep sep (y :: xs)

mutual
def jsonStringifyV : Nat → JsonValue → Option String
  | _, .null => some "null"
  | _, .bool b => some (cond b "true" "false")
  | _, .num n => some (toString n)
  | _, .str s => some (quoteJson s)
  | _, .bigint _ => none
  | _, .arr [] => some "[]"
  | lvl, .arr (x :: xs) =>
    match jsonStringifyItems (lvl + 1) (x :: xs) with
    | none => none
    | some pieces =>
      some ("[\n" ++ joinSep ",\n" (pieces.map (fun p => indentOf (lvl + 1) ++ p)) ++
        "\n" ++ indentOf lvl ++ "]")
  | _, .obj [] => some "{}"
  | lvl, .obj (f :: fs) =>
    match jsonStringifyFields (lvl + 1) (f :: fs) with
    | none => none
    | some pieces =>
      some ("\x7b\n" ++ joinSep ",\n" (pieces.map (fun p => indentOf (lvl + 1) ++ p)) ++
        "\n" ++ indentOf lvl ++ "\x7d")

def jsonStringifyItems : Nat → List JsonValue → Option (List String)
  | _, [] => some []
  | lvl, x :: xs =>
    match jsonStringifyV lvl x, jsonStringifyItems lvl xs with
    | some s, some ss => some (s :: ss)
    | _, _ => none

def jsonStringifyFields : Nat → List (String × JsonValue) → Option (List String)
  | _, [] => some []
  | lvl, (k, v) :: xs =>
    match jsonStringifyV lvl v, jsonStringifyFields lvl xs with
    | some s, some ss => some ((quoteJson k ++ ": " ++ s) :: ss)
    | _, _ => none
end

/-- `JSON.stringify(v, null, 2)`; `none` when it throws. -/
def jsonStringify (v : JsonValue) : Option String := jsonStringifyV 0 v

/-- `formatJSON` (`src/utils/schemaTransform.ts`): stringify, falling back to
`"{}"` when `JSON.stringify` throws (indent fixed at its default 2). -/
def formatJSON (j : JsonValue) : String := (jsonStringify j).getD "{}"

/-! ## src/utils/validation.ts -/

def MAX_NESTING_DEPTH : Nat := 10

def isKeyStart (c : Char) : Bool :=
  ('a' ≤ c && c ≤ 'z') || ('A' ≤ c && c ≤ 'Z') || c == '_' || c == '$'

def isKeyChar (c : Char) : Bool :=
  isKeyStart c || ('0' ≤ c && c ≤ '9')

/-- The regex `KEY_PATTERN` test. -/
def keyPatternTest (s : String) : Bool :=
  match s.data with
  | [] => false
  | c :: rest => isKeyStart c && rest.all isKeyChar

/-- `validateKey(key, existingKeys, currentId)`: returns the error message or `null`. -/
def validateKey (key : String) (existingKeys : List Property)
    (currentId : Option String) : Option String :=
  if key == "" || jsTrim key == "" then some "Key is required"
  else
    let trimmedKey := jsTrim key
    if !(keyPatternTest trimmedKey) then
      some "Key must start with a letter, underscore, or $ and contain only alphanumeric characters, underscores, or $"
    else
      match existingKeys.find? (fun item =>
          !(some item.id == currentId) && item.key == trimmedKey) with
      | some _ => some "Key already exists at this level"
      | none => none

/-- The `switch` of `validateValue` (after the early return for
`null`/`undefined`/`''`). -/
def validateValueGo (v : JsonValue) (type : String) : Bool :=
  match type with
  | "string" => (match v with | .str _ => true | _ => false)
  | "number" => (match v with | .num _ => true | _ => (jsToNumber v).isSome)
  | "boolean" =>
    (match v with
     | .bool _ => true
     | .str s => s == "true" || s == "false"
     | _ => false)
  | "object" => (match v with | .obj _ => true | _ => false)
  | "array" => (match v with | .arr _ => true | _ => false)
  | "null" => false
  | _ => false

/-- `validateValue(value, type)`.  `none` is `undefined`, `some .null` is `null`. -/
def validateValue (value : Option JsonValue) (type : String) : Bool :=
  match value with
  | none => true
  | some .null => true
  | some (.str "") => true
  | some v => validateValueGo v type

/-- The regex `/^-?\d+\.?\d*$/` used by `parseCommaSeparatedArray`. -/
def decimalNumTest (s : String) : Bool :=
  let body := fun (cs : List Char) =>
    let ds := cs.takeWhile Char.isDigit
    let rest := cs.dropWhile Char.isDigit
    !ds.isEmpty &&
      (rest.isEmpty ||
        (rest.head? == some '.' && (rest.drop 1).all Char.isDigit))
  match s.data with
  | '-' :: rest => body rest
  | cs => body cs

/-- `parseCommaSeparatedArray(value)`.  A segment matching the numeric regex whose
value is not an integer cannot be represented in this model and is kept as a
string (no claim depends on such segments). -/
def parseCommaSeparatedArray (value : String) : List JsonValue :=
  if value == "" || jsTrim value == "" then []
  else
    match jsonParse value with
    | some (.arr xs) => xs
    | _ =>
      (splitOnComma value).map (fun item =>
        let trimmed := jsTrim item
        if startsWithChar trimmed '{' || startsWithChar trimmed '[' then
          match jsonParse trimmed with
          | some v => v
          | none => .str trimmed
        else if decimalNumTest trimmed then
          match jsStringToNumber trimmed with
          | some n => .num n
          | none => .str trimmed
        else if jsToLower trimmed == "true" then .bool true
        else if jsToLower trimmed == "false" then .bool false
        else .str trimmed)

/-- The `switch` of `convertValue` (after the early return for
`null`/`undefined`/`''`). -/
def convertValueGo (v : JsonValue) (type : String) : Option JsonValue :=
  match type with
  | "string" => some (.str (jsToString v))
  | "number" =>
    (match jsToNumber v with
     | none => some .null
     | some n => some (.num n))
  | "boolean" =>
    (match v with
     | .bool b => some (.bool b)
     | .str "true" => some (.bool true)
     | .str "false" => some (.bool false)
     | _ => some (.bool (jsBoolean v)))
  | "object" =>
    (match v with
     | .str s =>
       (match jsonParse s with
        | some p => some p
        | none => some .null)
     | .obj fs => some (.obj fs)
     | _ => some .null)
  | "array" =>
    (match v with
     | .arr xs => some (.arr xs)
     | .str s =>
       (match jsonParse s with
        | some (.arr xs) => some (.arr xs)
        | _ => some (.arr (parseCommaSeparatedArray s)))
     | _ => some .null)
  | "null" => some .null
  | _ => some v

/-- `convertValue(value, type)`: coerce a value to the target type, `null` on
failure (the function never throws). -/
def convertValue (value : Option JsonValue) (type : String) : Option JsonValue :=
  match value with
  | none => some .null
  | some .null => some .null
  | some (.str "") => some .null
  | some v => convertValueGo v type

/-- `getNestingDepth(propertyId, allProperties, currentDepth)`: capped walk up the
`parentId` chain.  A falsy (`null` or empty) parent id stops the walk, as in the
source's truthiness test. -/
def getNestingDepth (propertyId : String) (allProperties : List Property)
    (currentDepth : Nat) : Nat :=
  if _h : currentDepth ≥ MAX_NESTING_DEPTH then MAX_NESTING_DEPTH
  else
    match allProperties.find? (fun p => p.id == propertyId) with
    | none => currentDepth
    | some p =>
      match p.parentId with
      | none => currentDepth
      | some pid =>
        if pid = "" then currentDepth
        else getNestingDepth pid allProperties (currentDepth + 1)
termination_by MAX_NESTING_DEPTH - currentDepth

/-- `getParentChain(propertyId, allProperties, chain)`: walks up `parentId` links,
stopping as soon as a parent id already occurs in the chain. -/
def getParentChain (propertyId : String) (allProperties : List Property)
    (chain : List String) : List String :=
  match hf : allProperties.find? (fun p => p.id == propertyId) with
  | none => chain
  | some p =>
    match hp : p.parentId with
    | none => chain
    | some pid =>
      if pid = "" then chain
      else if hmem : pid ∈ chain then chain ++ [pid]
      else getParentChain pid allProperties (chain ++ [pid])
termination_by ((allProperties.filterMap Property.parentId).toFinset \ chain.toFinset).card
decreasing_by
  have hpmem : p ∈ allProperties := List.mem_of_find?_eq_some hf
  have hpid : pid ∈ (allProperties.filterMap Property.parentId).toFinset := by
    simp only [List.mem_toFinset, List.mem_filterMap]
    exact ⟨p, hpmem, hp⟩
  have hins : (chain ++ [pid]).toFinset = insert pid chain.toFinset := by
    simp only [List.toFinset_append]
    ext x
    simp [or_comm]
  rw [hins]
  apply Finset.card_lt_card
  constructor
  · exact Finset.sdiff_subset_sdiff (Finset.Subset.refl _) (Finset.subset_insert _ _)
  · intro hsub
    have : pid ∈ (allProperties.filterMap Property.parentId).toFinset \ chain.toFinset := by
      simp only [Finset.mem_sdiff, List.mem_toFinset]
      exact ⟨by simpa using hpid, hmem⟩
    have := hsub this
    simp at this

/-- `wouldCreateCircularReference(parentId, propertyId, allProperties)`. -/
def wouldCreateCircularReference (parentId propertyId : String)
    (allProperties : List Property) : Bool :=
  let parentChain := getParentChain parentId allProperties []
  parentChain.contains propertyId || propertyId == parentId

/-! ## src/utils/schemaTransform.ts -/

/-- A `JSONSchemaProperty` node (`src/types`): every field may be absent. -/
inductive SchemaProperty where
  | mk (key : Option String) (type : Option PropertyType) (description : Option String)
       (default : Option JsonValue) (properties : Option (List (String × SchemaProperty)))
       (required : Option (List String)) (items : Option SchemaProperty)

def SchemaProperty.key : SchemaProperty → Option String
  | .mk k _ _ _ _ _ _ => k

def SchemaProperty.type : SchemaProperty → Option PropertyType
  | .mk _ t _ _ _ _ _ => t

def SchemaProperty.description : SchemaProperty → Option String
  | .mk _ _ d _ _ _ _ => d

def SchemaProperty.default : SchemaProperty → Option JsonValue
  | .mk _ _ _ df _ _ _ => df

def SchemaProperty.properties : SchemaProperty → Option (List (String × SchemaProperty))
  | .mk _ _ _ _ ps _ _ => ps

def SchemaProperty.required : SchemaProperty → Option (List String)
  | .mk _ _ _ _ _ r _ => r

def SchemaProperty.items : SchemaProperty → Option SchemaProperty
  | .mk _ _ _ _ _ _ it => it

/-- The `JSONSchema` root document (`src/types`). -/
structure JSONSchema where
  type : String
  properties : Option (List (String × SchemaProperty))
  required : Option (List String)

/-- JS truthiness of `p.key && p.key.trim() !== ''`. -/
def hasValidKey (p : Property) : Bool :=
  !(p.key == "") && !(jsTrim p.key == "")

/-- `value !== null && value !== undefined && value !== ''`. -/
def jsPresent : Option JsonValue → Bool
  | none => false
  | some .null => false
  | some (.str "") => false
  | some _ => true

/-- JS falsiness of a `string | null` field (`!p.parentId`). -/
def jsFalsyOptId : Option String → Bool
  | none => true
  | some s => s == ""

/-- `propertyToSchemaProperty(property, allProperties)`.  The recursion follows
`parentId` lookups in the flat collection, so it is driven by fuel; the fuel used
by `propertiesToSchema` is sufficient for every acyclic collection (deeper `items`
chains than the collection length are out of scope). -/
def propertyToSchemaProperty : Nat → Property → List Property → SchemaProperty
  | 0, property, _ =>
    .mk (some property.key) (some property.type) none none none none none
  | fuel + 1, property, allProperties =>
    let descr := if property.description == "" then none else some property.description
    let dflt := if jsPresent property.value then property.value else none
    let nestedPart : Option (List (String × SchemaProperty)) × Option (List String) :=
      if property.type = .object then
        let nestedProperties := allProperties.filter (fun p =>
          p.parentId == some property.id && hasValidKey p)
        if nestedProperties.isEmpty then (none, none)
        else
          let entries := nestedProperties.filter hasValidKey
          let m := entries.foldl (fun acc np =>
            jsObjSet acc np.key (propertyToSchemaProperty fuel np allProperties)) []
          let req := (entries.filter (fun np => np.required)).map (fun np => np.key)
          (some m, if req.isEmpty then none else some req)
      else (none, none)
    let items? : Option SchemaProperty :=
      if property.type = .array then
        match property.items with
        | some it => some (propertyToSchemaProperty fuel it allProperties)
        | none => none
      else none
    .mk (some property.key) (some property.type) descr dflt nestedPart.1 nestedPart.2 items?

/-- `propertiesToSchema(properties)`. -/
def propertiesToSchema (properties : List Property) : JSONSchema :=
  let rootProperties := properties.filter (fun p =>
    jsFalsyOptId p.parentId && hasValidKey p)
  if rootProperties.isEmpty then
    { type := "object", properties := some [], required := none }
  else
    let fuel := properties.length + 1
    let entries := rootProperties.filter hasValidKey
    let m := entries.foldl (fun acc p =>
      jsObjSet acc p.key (propertyToSchemaProperty fuel p properties)) []
    let required := (entries.filter (fun p => p.required)).map (fun p => p.key)
    { type := "object", properties := some m,
      required := if required.isEmpty then none else some required }

/-- One level of nested entries in `schemaToProperties` (the inner
`Object.entries(schemaProperty.properties).map`); threads the id counter. -/
def stpNested : List (String × SchemaProperty) → Option (List String) → String →
    (Nat → String) → Nat → List Property × Nat
  | [], _, _, _, k => ([], k)
  | (nestedKey, nestedSchema) :: rest, spReq, parentPid, gen, k =>
    let nestedPropertyKey := match nestedSchema.key with
      | some kk => if kk == "" then nestedKey else kk
      | none => nestedKey
    let np := Property.mk (gen k) nestedPropertyKey
      ((nestedSchema.description).getD "")
      ((nestedSchema.type).getD .string)
      (match nestedSchema.default with | some d => some d | none => some .null)
      (match spReq with | some l => l.contains nestedKey | none => false)
      (some parentPid) [] none
    let restOut := stpNested rest spReq parentPid gen (k + 1)
    (np :: restOut.1, restOut.2)

/-- One entry of `schema.properties` in `schemaToProperties`: produces the nested
children (object case), the optional `items` property (array case) and the property
itself, in the source's push order. -/
def stpEntry (key : String) (sp : SchemaProperty) (schemaRequired : Option (List String))
    (parentId : Option String) (gen : Nat → String) (k : Nat) : List Property × Nat :=
  let propertyKey := match sp.key with
    | some kk => if kk == "" then key else kk
    | none => key
  let pid := gen k
  let required := match schemaRequired with | some l => l.contains key | none => false
  let nestedPart : List Property × Nat :=
    if sp.type == some PropertyType.object then
      match sp.properties with
      | some m => stpNested m sp.required pid gen (k + 1)
      | none => ([], k + 1)
    else ([], k + 1)
  let nested := nestedPart.1
  let itemsPart : Option Property × Nat :=
    if sp.type == some PropertyType.array then
      match sp.items with
      | some isp =>
        (some (Property.mk (gen nestedPart.2) "item"
          ((isp.description).getD "")
          ((isp.type).getD .string)
          (match isp.default with | some d => some d | none => some .null)
          false (some pid) [] none), nestedPart.2 + 1)
      | none => (none, nestedPart.2)
    else (none, nestedPart.2)
  let property := Property.mk pid propertyKey
    ((sp.description).getD "")
    ((sp.type).getD .string)
    (match sp.default with | some d => some d | none => some .null)
    required parentId nested itemsPart.1
  (nested ++ [property], itemsPart.2)

/-- Fold of `stpEntry` over the entry list. -/
def stpEntries : List (String × SchemaProperty) → Option (List String) → Option String →
    (Nat → String) → Nat → List Property × Nat
  | [], _, _, _, k => ([], k)
  | (key, sp) :: rest, schemaRequired, parentId, gen, k =>
    let out := stpEntry key sp schemaRequired parentId gen k
    let outRest := stpEntries rest schemaRequired parentId gen out.2
    (out.1 ++ outRest.1, outRest.2)

/-- `schemaToProperties(schema, parentId, generateId)`: the id generator is
modelled as a stream `gen : Nat → String` consumed left to right. -/
def schemaToProperties (schema : JSONSchema) (parentId : Option String)
    (gen : Nat → String) : List Property :=
  if schema.type ≠ "object" then []
  else
    match schema.properties with
    | none => []
    | some entries => (stpEntries entries schema.required parentId gen 0).1

def PropertyType.toStr : PropertyType → String
  | .string => "string"
  | .number => "number"
  | .boolean => "boolean"
  | .object => "object"
  | .array => "array"
  | .null => "null"

mutual
/-- The JS object underlying a `SchemaProperty`, with fields in the source's
insertion order (`key`, `type`, `description`, `default`, `properties`,
`required`, `items`). -/
def spToJson : SchemaProperty → JsonValue
  | .mk key typ descr dflt props req items =>
    .obj
      ((match key with | some k => [("key", JsonValue.str k)] | none => [])
        ++ (match typ with | some t => [("type", JsonValue.str t.toStr)] | none => [])
        ++ (match descr with | some d => [("description", JsonValue.str d)] | none => [])
        ++ (match dflt with | some v => [("default", v)] | none => [])
        ++ (match props with
            | some m => [("properties", JsonValue.obj (spFieldsToJson m))]
            | none => [])
        ++ (match req with
            | some l => [("required", JsonValue.arr (l.map JsonValue.str))]
            | none => [])
        ++ (match items with | some isp => [("items", spToJson isp)] | none => []))

def spFieldsToJson : List (String × SchemaProperty) → List (String × JsonValue)
  | [] => []
  | (k, sp) :: rest => (k, spToJson sp) :: spFieldsToJson rest
end

/-- The JS object underlying a `JSONSchema` document. -/
def schemaToJson (s : JSONSchema) : JsonValue :=
  .obj
    ([("type", JsonValue.str s.type)]
      ++ (match s.properties with
          | some m => [("properties", JsonValue.obj (spFieldsToJson m))]
          | none => [])
      ++ (match s.required with
          | some l => [("required", JsonValue.arr (l.map JsonValue.str))]
          | none => []))

/-! ## src/store/useSchemaStore.ts -/

/-- The observable store state. -/
structure SchemaStore where
  properties : List Property
  selectedPropertyId : Option String
  schema : JSONSchema
  schemaString : String
  isValid : Bool
  schemaData : Option JSONSchema

/-- The store's initial state. -/
def initialStore : SchemaStore :=
  { properties := []
    selectedPropertyId := none
    schema := { type := "object", properties := some [], required := none }
    schemaString := "{}"
    isValid := true
    schemaData := none }

/-- `generateSchema()`. -/
def generateSchema (st : SchemaStore) : SchemaStore :=
  let validProperties := st.properties.filter hasValidKey
  let schema := propertiesToSchema validProperties
  let schemaString := formatJSON (schemaToJson schema)
  let isValid := (jsonParse schemaString).isSome
  { st with
    schema := schema
    schemaString := schemaString
    isValid := isValid
    schemaData := if isValid then some schema else none }

/-- `addProperty(parentId)`: the fresh id produced by `generateId()` is passed in
explicitly.  Returns the new id and the new state. -/
def addProperty (st : SchemaStore) (parentId : Option String) (newId : String) :
    String × SchemaStore :=
  let newProperty := Property.mk newId "" "" .string (some .null) false parentId [] none
  (newId,
    { st with
      properties := st.properties ++ [newProperty]
      selectedPropertyId := some newId })

/-- A `PropertyUpdate` record (`src/types`): absent fields do not overwrite. -/
structure PropertyUpdate where
  key : Option String
  description : Option String
  type : Option PropertyType
  value : Option (Option JsonValue)
  required : Option Bool
  parentId : Option (Option String)
  properties : Option (List Property)
  items : Option (Option Property)

/-- Object spread `{ ...prop, ...updates }`. -/
def mergeProp (p : Property) (u : PropertyUpdate) : Property :=
  Property.mk p.id (u.key.getD p.key) (u.description.getD p.description)
    (u.type.getD p.type) (u.value.getD p.value) (u.required.getD p.required)
    (u.parentId.getD p.parentId) (u.properties.getD p.properties)
    (u.items.getD p.items)

/-- `updateProperty(id, updates)`. -/
def updateProperty (st : SchemaStore) (id : String) (u : PropertyUpdate) : SchemaStore :=
  let props' := st.properties.map (fun prop => if prop.id == id then mergeProp prop u else prop)
  let st₁ := { st with properties := props' }
  match props'.find? (fun p => p.id == id) with
  | some updatedProperty =>
    if !(updatedProperty.key == "") && !(jsTrim updatedProperty.key == "") then
      generateSchema st₁
    else st₁
  | none => st₁

/-- `findNestedIds(parentId)` inside `removeProperty`: children ids followed by the
recursively found descendants of each child, fuel-driven. -/
def findNestedIds : Nat → List Property → String → List String
  | 0, _, _ => []
  | fuel + 1, properties, parentId =>
    let nested := properties.filter (fun p => p.parentId == some parentId)
    let nestedIds := nested.map Property.id
    nestedIds ++ (nestedIds.map (fun nestedId => findNestedIds fuel properties nestedId)).flatten

/-- `removeProperty(id)`. -/
def removeProperty (st : SchemaStore) (id : String) : SchemaStore :=
  let idsToRemove := id :: findNestedIds st.properties.length st.properties id
  let st₁ := { st with
    properties := st.properties.filter (fun p => !(idsToRemove.contains p.id))
    selectedPropertyId :=
      if st.selectedPropertyId == some id then none else st.selectedPropertyId }
  generateSchema st₁

/-- `addNestedProperty(parentId)`: guarded `addProperty`.  Returns the produced id
(or `null`) and the new state. -/
def addNestedProperty (st : SchemaStore) (parentId : String) (newId : String) :
    Option String × SchemaStore :=
  match st.properties.find? (fun p => p.id == parentId) with
  | none => (none, st)
  | some _ =>
    let depth := getNestingDepth parentId st.properties 0
    if depth ≥ 10 then (none, st)
    else if wouldCreateCircularReference parentId parentId st.properties then (none, st)
    else
      let r := addProperty st (some parentId) newId
      (some r.1, r.2)

/-- A saved property record handed to `restoreProperties`: any field may be
missing.  `value`'s `none` is `undefined`; `parentId`'s outer `none` is
`undefined` and `some none` is `null`. -/
structure SavedProperty where
  id : Option String
  key : Option String
  description : Option String
  type : Option PropertyType
  value : Option JsonValue
  required : Option Bool
  parentId : Option (Option String)
  properties : Option (List Property)

/-- The normalization step of `restoreProperties` for one record. -/
def normalizeSaved (prop : SavedProperty) (freshId : String) : Property :=
  Property.mk
    (match prop.id with | some i => if i == "" then freshId else i | none => freshId)
    ((prop.key).getD "")
    ((prop.description).getD "")
    ((prop.type).getD .string)
    (match prop.value with | some v => some v | none => some .null)
    ((prop.required).getD false)
    (match prop.parentId with | some x => x | none => none)
    ((prop.properties).getD [])
    none

/-- `restoreProperties(savedProperties)`: the `generateId()` stream for records
with a falsy id is modelled by `fresh`, indexed by record position. -/
def restoreProperties (st : SchemaStore) (savedProperties : List SavedProperty)
    (fresh : Nat → String) : SchemaStore :=
  if savedProperties.isEmpty then st
  else
    let normalizedProperties :=
      (savedProperties.enum).map (fun ip => normalizeSaved ip.2 (fresh ip.1))
    let validProperties := normalizedProperties.filter hasValidKey
    let schema := propertiesToSchema validProperties
    let schemaString := formatJSON (schemaToJson schema)
    { st with
      properties := normalizedProperties
      selectedPropertyId := none
      schema := schema
      schemaString := schemaString }

/-! ## Forest abstraction for the round-trip claim

A property list is abstracted to a forest keyed by the parent/child structure,
recording exactly the fields the round-trip claim speaks about (ids are ignored,
as are the informational `properties` and `items` fields). -/

/-- A node of the id-free tree view of a property collection. -/
inductive PTree where
  | node (key : String) (description : String) (type : PropertyType)
         (value : Option JsonValue) (required : Bool) (children : List PTree)

def toForestAux : Nat → List Property → Option String → List PTree
  | 0, _, _ => []
  | fuel + 1, ps, parent =>
    (ps.filter (fun p => p.parentId == parent)).map (fun p =>
      .node p.key p.description p.type p.value p.required
        (toForestAux fuel ps (some p.id)))

/-- The id-free forest of a property collection: roots are the properties with
`parentId = none`, children are found by `parentId` lookup. -/
def toForest (ps : List Property) : List PTree :=
  toForestAux (ps.length + 1) ps none

mutual
def PTree.size : PTree → Nat
  | .node _ _ _ _ _ children => 1 + forestSize children

def forestSize : List PTree → Nat
  | [] => 0
  | t :: ts => t.size + forestSize ts
end


/-! ## Ancestor walks and transitive descendants (specification side)

Used to settle the deletion-cascade claim: a property is a transitive descendant
of an id `x` exactly when `x` occurs on its ancestor walk obtained by repeated
`parentId` lookup. -/

/-- Whether the ancestor walk starting at `pid` reaches its natural end (a `null`
parent or a dangling id) within the given fuel. -/
def walkEnds : Nat → List Property → Option String → Bool
  | _, _, none => true
  | 0, _, some _ => false
  | fuel + 1, props, some i =>
    match props.find? (fun q => q.id == i) with
    | none => true
    | some q => walkEnds fuel props q.parentId

/-- The ids encountered on the ancestor walk starting at `pid`. -/
def ancIds : Nat → List Property → Option String → List String
  | _, _, none => []
  | 0, _, some _ => []
  | fuel + 1, props, some i =>
    i :: (match props.find? (fun q => q.id == i) with
          | none => []
          | some q => ancIds fuel props q.parentId)

/-- Acyclicity of the `parentId` links: every property's ancestor walk ends
naturally within `props.length` steps. -/
def Acyclic (props : List Property) : Prop :=
  ∀ p ∈ props, walkEnds props.length props p.parentId = true

/-- `p` is a transitive descendant of the id `x`: `x` occurs on `p`'s ancestor
walk. -/
def isTransDescendant (props : List Property) (x : String) (p : Property) : Bool :=
  (ancIds props.length props p.parentId).contains x

/-- A parent-link path of length `n` from `p` up to the id `root`. -/
inductive DescPath (props : List Property) (root : String) : Property → Nat → Prop
  | base (p : Property) (hp : p ∈ props) (hpid : p.parentId = some root) :
      DescPath props root p 1
  | cons (p q : Property) (n : Nat) (hp : p ∈ props) (hpid : p.parentId = some q.id)
      (hq : DescPath props root q n) : DescPath props root p (n + 1)


/-! ## Closed forms for the depth-1 round trip (specification side)

Under the amended round-trip hypotheses (each property a root or a direct child
of an object-typed root), `propertiesToSchema` and `schemaToProperties` admit the
closed forms below, from which the forest equality is proved. -/

def rootsOf (P : List Property) : List Property :=
  P.filter (fun p => p.parentId == none)

def childrenOf (P : List Property) (r : Property) : List Property :=
  P.filter (fun c => c.parentId == some r.id)

def descrOf (p : Property) : Option String :=
  if p.description == "" then none else some p.description

def dfltOf (p : Property) : Option JsonValue :=
  if jsPresent p.value then p.value else none

/-- The schema node produced for a childless (leaf) property. -/
def leafOf (c : Property) : SchemaProperty :=
  .mk (some c.key) (some c.type) (descrOf c) (dfltOf c) none none none

def reqKidsOf (P : List Property) (r : Property) : List String :=
  ((childrenOf P r).filter (fun c => c.required)).map (fun c => c.key)

/-- The schema node produced for a root property (children one level deep). -/
def rootSPOf (P : List Property) (r : Property) : SchemaProperty :=
  .mk (some r.key) (some r.type) (descrOf r) (dfltOf r)
    (if r.type == PropertyType.object && !(childrenOf P r).isEmpty then
      some ((childrenOf P r).map (fun c => (c.key, leafOf c)))
     else none)
    (if r.type == PropertyType.object && !(childrenOf P r).isEmpty
        && !(reqKidsOf P r).isEmpty then
      some (reqKidsOf P r)
     else none)
    none

def reqRootsOf (P : List Property) : List String :=
  ((rootsOf P).filter (fun p => p.required)).map (fun p => p.key)

/-- Closed form of `propertiesToSchema` on depth-1 collections. -/
def schemaOf (P : List Property) : JSONSchema :=
  { type := "object"
    properties := some ((rootsOf P).map (fun r => (r.key, rootSPOf P r)))
    required := if reqRootsOf P = [] then none else some (reqRootsOf P) }

/-- Closed form of the nested-children part of `schemaToProperties`. -/
def stpNestedExp (gen : Nat → String) (spReq : Option (List String)) (rootId : String) :
    List Property → Nat → List Property
  | [], _ => []
  | c :: cs, k =>
    Property.mk (gen k) c.key c.description c.type
      (match dfltOf c with | some d => some d | none => some .null)
      (match spReq with | some l => l.contains c.key | none => false)
      (some rootId) [] none :: stpNestedExp gen spReq rootId cs (k + 1)

/-- Number of generated ids consumed by one schema entry. -/
def entryWeight (P : List Property) (r : Property) : Nat :=
  if r.type == PropertyType.object && !(childrenOf P r).isEmpty then
    1 + (childrenOf P r).length
  else 1

/-- Closed form of `schemaToProperties` on the schema of a depth-1 collection. -/
def stpEntriesExp (P : List Property) (gen : Nat → String)
    (reqOpt : Option (List String)) : List Property → Nat → List Property
  | [], _ => []
  | r :: rs, k =>
    let kids := childrenOf P r
    let kidProps :=
      if r.type == PropertyType.object && !kids.isEmpty then
        stpNestedExp gen (rootSPOf P r).required (gen k) kids (k + 1)
      else []
    kidProps ++
      Property.mk (gen k) r.key r.description r.type
        (match dfltOf r with | some d => some d | none => some .null)
        (match reqOpt with | some l => l.contains r.key | none => false)
        none kidProps none
      :: stpEntriesExp P gen reqOpt rs (k + entryWeight P r)

def stpWeights (P : List Property) : List Property → Nat
  | [] => 0
  | r :: rs => entryWeight P r + stpWeights P rs

/-- The common id-free forest of a depth-1 collection and of its round trip. -/
def expForest (P : List Property) : List Property → List PTree
  | [] => []
  | r :: rs =>
    PTree.node r.key r.description r.type r.value r.required
      ((childrenOf P r).map (fun c =>
        PTree.node c.key c.description c.type c.value c.required []))
      :: expForest P rs

/-- A depth-1 collection exercising the round trip: two roots, one of them an
object with a nested child. -/
def roundTripP : List Property :=
  [Property.mk "r1" "name" "" PropertyType.string (some (JsonValue.num 5)) true none [] none,
   Property.mk "r2" "cfg" "settings" PropertyType.object (some (JsonValue.num 1)) false
     none [] none,
   Property.mk "c1" "port" "" PropertyType.number (some (JsonValue.num 80)) true
     (some "r2") [] none]

/-- An injective id generator for round-trip instances. -/
def roundTripGen : Nat → String :=
  fun n => String.mk (List.replicate n 'z')

/-- A depth-2 chain (root object, child object, grandchild): unique non-empty
keys everywhere and nesting depth well below 10. -/
def deepP : List Property :=
  [Property.mk "a" "top" "" PropertyType.object (some (JsonValue.num 1)) false none [] none,
   Property.mk "b" "mid" "" PropertyType.object (some (JsonValue.num 2)) false
     (some "a") [] none,
   Property.mk "c" "leaf" "" PropertyType.number (some (JsonValue.num 3)) true
     (some "b") [] none]

/-! ## Helper lemmas -/

/-- `getNestingDepth` never exceeds the cap, for any starting depth below it. -/
lemma aux_depth_le (n : Nat) : ∀ (pid : String) (props : List Property) (d : Nat),
    10 - d ≤ n → d ≤ 10 → getNestingDepth pid props d ≤ 10 := by
  induction n with
  | zero =>
    intro pid props d hn _hd
    have hd10 : d ≥ 10 := by omega
    rw [getNestingDepth]
    simp [MAX_NESTING_DEPTH, hd10]
  | succ n ih =>
    intro pid props d hn hd
    rw [getNestingDepth]
    split
    · simp [MAX_NESTING_DEPTH]
    · rename_i hlt
      simp only [MAX_NESTING_DEPTH] at hlt
      cases props.find? (fun p => p.id == pid) with
      | none => exact hd
      | some p =>
        dsimp only
        cases p.parentId with
        | none => exact hd
        | some pid' =>
          dsimp only
          by_cases hpid : pid' = ""
          · simp [hpid, hd]
          · rw [if_neg hpid]
            exact ih pid' props (d + 1) (by omega) (by omega)

/-- Non-dependent unfolding equation for `getParentChain`. -/
lemma getParentChain_eq (propertyId : String) (props : List Property) (chain : List String) :
    getParentChain propertyId props chain =
      (match props.find? (fun p => p.id == propertyId) with
      | none => chain
      | some p =>
        match p.parentId with
        | none => chain
        | some pid =>
          if pid = "" then chain
          else if pid ∈ chain then chain ++ [pid]
          else getParentChain pid props (chain ++ [pid])) := by
  rw [getParentChain]
  split
  · rename_i heq
    rw [heq]
  · rename_i p heq
    rw [heq]
    dsimp only
    split
    · rename_i hp
      rw [hp]
    · rename_i pid hp
      rw [hp]
      dsimp only
      split
      · rfl
      · rename_i hne
        split
        · rfl
        · rfl

/-- Length invariant of the `getParentChain` walk. -/
lemma aux_chain_len (pid : String) (props : List Property) (chain : List String) :
    (getParentChain pid props chain).length ≤
      chain.length + ((props.filterMap Property.parentId).toFinset \ chain.toFinset).card + 1 := by
  induction pid, props, chain using getParentChain.induct with
  | case1 propertyId allProperties chain hfind =>
    rw [getParentChain_eq, hfind]
    dsimp only
    omega
  | case2 propertyId allProperties chain p hfind hp =>
    rw [getParentChain_eq, hfind]
    dsimp only
    rw [hp]
    dsimp only
    omega
  | case3 propertyId allProperties chain p hfind hp =>
    rw [getParentChain_eq, hfind]
    dsimp only
    rw [hp]
    dsimp only
    rw [if_pos rfl]
    omega
  | case4 propertyId allProperties chain p hfind pid hp hne hmem =>
    rw [getParentChain_eq, hfind]
    dsimp only
    rw [hp]
    dsimp only
    rw [if_neg hne, if_pos hmem]
    simp only [List.length_append, List.length_singleton]
    omega
  | case5 propertyId allProperties chain p hfind pid hp hne hmem ih =>
    rw [getParentChain_eq, hfind]
    dsimp only
    rw [hp]
    dsimp only
    rw [if_neg hne, if_neg hmem]
    have hins : (chain ++ [pid]).toFinset = insert pid chain.toFinset := by
      simp only [List.toFinset_append]
      ext x
      simp [or_comm]
    rw [hins] at ih
    have hpidmem : pid ∈ (allProperties.filterMap Property.parentId).toFinset \ chain.toFinset := by
      simp only [Finset.mem_sdiff, List.mem_toFinset, List.mem_filterMap]
      exact ⟨⟨p, List.mem_of_find?_eq_some hfind, hp⟩, hmem⟩
    have hcard :
        ((allProperties.filterMap Property.parentId).toFinset \ insert pid chain.toFinset).card <
        ((allProperties.filterMap Property.parentId).toFinset \ chain.toFinset).card := by
      apply Finset.card_lt_card
      constructor
      · exact Finset.sdiff_subset_sdiff (Finset.Subset.refl _) (Finset.subset_insert _ _)
      · intro hsub
        have := hsub hpidmem
        simp at this
    simp only [List.length_append, List.length_singleton] at ih
    omega

/-! ## Claim theorems -/

/-- Past the early return: `convertValue` on a defined, non-null, non-`''` value
is its `switch`. -/
lemma aux_convert_some (w : JsonValue) (T : String) (h1 : w ≠ .null) (h2 : w ≠ .str "") :
    convertValue (some w) T = convertValueGo w T := by
  cases w
  case null => exact absurd rfl h1
  case str s =>
    by_cases hs : s = ""
    · exact absurd (by rw [hs]) h2
    · unfold convertValue
      split
      · rename_i heq; exact absurd heq (by simp)
      · rename_i heq
        have : JsonValue.str s = JsonValue.null := by injection heq
        exact absurd this (by simp)
      · rename_i heq
        have h : JsonValue.str s = JsonValue.str "" := by injection heq
        have : s = "" := by injection h
        exact absurd this hs
      · rename_i v heq
        have hv := Option.some.inj heq
        rw [hv]
  all_goals rfl

/-- Past the early return: `validateValue` on a defined, non-null, non-`''` value
is its `switch`. -/
lemma aux_validate_some (w : JsonValue) (T : String) (h1 : w ≠ .null) (h2 : w ≠ .str "") :
    validateValue (some w) T = validateValueGo w T := by
  cases w
  case null => exact absurd rfl h1
  case str s =>
    by_cases hs : s = ""
    · exact absurd (by rw [hs]) h2
    · unfold validateValue
      split
      · rename_i heq; exact absurd heq (by simp)
      · rename_i heq
        have : JsonValue.str s = JsonValue.null := by injection heq
        exact absurd this (by simp)
      · rename_i heq
        have h : JsonValue.str s = JsonValue.str "" := by injection heq
        have : s = "" := by injection h
        exact absurd this hs
      · rename_i v heq
        have hv := Option.some.inj heq
        rw [hv]
  all_goals rfl

/-- The boolean `switch` branch on a string: the two literals convert, everything
else is `Boolean(value)`. -/
lemma aux_convertGo_bool_str (s : String) :
    convertValueGo (.str s) "boolean" =
      (if s = "true" then some (.bool true)
       else if s = "false" then some (.bool false)
       else some (.bool (jsBoolean (.str s)))) := by
  by_cases h1 : s = "true"
  · subst h1; rfl
  · by_cases h2 : s = "false"
    · subst h2; rfl
    · rw [if_neg h1, if_neg h2]
      simp only [convertValueGo]
      split
      · rename_i heq; exact absurd heq (by simp)
      · rename_i heq
        have : s = "true" := by injection heq
        exact absurd this h1
      · rename_i heq
        have : s = "false" := by injection heq
        exact absurd this h2
      · rfl


/-- A string value always validates against declared type `string` (the empty
string through the optional-value early return). -/
lemma aux_vv_string (s : String) : validateValue (some (.str s)) "string" = true := by
  by_cases hs : s = ""
  · rw [hs]; rfl
  · rw [aux_validate_some _ _ (by simp) (by simp [hs])]
    rfl

/-- C2 (counterexample): for type `object` and raw string `"5"`, `convertValue`
returns `JSON.parse("5") = 5`, a non-null value that fails `validateValue` for
`object` — the input does not parse to a non-null, non-array mapping, yet the
conversion does not fail. -/
theorem c2_counterexample :
    ("object" : String) ∈ ["string", "number", "boolean", "object", "array", "null"] ∧
    convertValue (some (.str "5")) "object" = some (.num 5) ∧
    convertValue (some (.str "5")) "object" ≠ some .null ∧
    validateValue (convertValue (some (.str "5")) "object") "object" = false := by
  refine ⟨by decide, rfl, ?_, rfl⟩
  intro h
  rw [show convertValue (some (.str "5")) "object" = some (.num 5) from rfl] at h
  simp at h

/-- C2 (amended): for the five recognized types other than `object`, a non-null
result of `convertValue` always satisfies `validateValue`; for `object` the
property fails because a string input is passed through `JSON.parse` unchecked. -/
theorem c2_convert_validates (v : Option JsonValue) (T : String)
    (hT : T ∈ ["string", "number", "boolean", "array", "null"])
    (hnn : convertValue v T ≠ some .null) :
    validateValue (convertValue v T) T = true := by
  simp only [List.mem_cons, List.not_mem_nil, or_false] at hT
  rcases v with _ | w
  · exact absurd rfl hnn
  · cases w with
    | null => exact absurd rfl hnn
    | str s =>
      by_cases hs : s = ""
      · rw [hs] at hnn
        exact absurd rfl hnn
      · rw [aux_convert_some _ _ (by simp) (by simp [hs])] at hnn ⊢
        rcases hT with rfl | rfl | rfl | rfl | rfl
        · exact aux_vv_string _
        · rcases hn : jsStringToNumber s with _ | n
          · exact absurd (by simp only [convertValueGo, jsToNumber]; rw [hn]) hnn
          · have hgo : convertValueGo (.str s) "number" = some (.num n) := by
              simp only [convertValueGo, jsToNumber]; rw [hn]
            rw [hgo]; rfl
        · rw [aux_convertGo_bool_str s]
          split_ifs <;> rfl
        · rcases hp : jsonParse s with _ | val
          · have hgo : convertValueGo (.str s) "array" =
                some (.arr (parseCommaSeparatedArray s)) := by
              simp only [convertValueGo]; rw [hp]
            rw [hgo]; rfl
          · cases val with
            | arr xs =>
              have hgo : convertValueGo (.str s) "array" = some (.arr xs) := by
                simp only [convertValueGo]; rw [hp]
              rw [hgo]; rfl
            | str t =>
              have hgo : convertValueGo (.str s) "array" =
                  some (.arr (parseCommaSeparatedArray s)) := by
                simp only [convertValueGo]; rw [hp]
              rw [hgo]; rfl
            | num n =>
              have hgo : convertValueGo (.str s) "array" =
                  some (.arr (parseCommaSeparatedArray s)) := by
                simp only [convertValueGo]; rw [hp]
              rw [hgo]; rfl
            | bool b =>
              have hgo : convertValueGo (.str s) "array" =
                  some (.arr (parseCommaSeparatedArray s)) := by
                simp only [convertValueGo]; rw [hp]
              rw [hgo]; rfl
            | null =>
              have hgo : convertValueGo (.str s) "array" =
                  some (.arr (parseCommaSeparatedArray s)) := by
                simp only [convertValueGo]; rw [hp]
              rw [hgo]; rfl
            | obj fs =>
              have hgo : convertValueGo (.str s) "array" =
                  some (.arr (parseCommaSeparatedArray s)) := by
                simp only [convertValueGo]; rw [hp]
              rw [hgo]; rfl
            | bigint n =>
              have hgo : convertValueGo (.str s) "array" =
                  some (.arr (parseCommaSeparatedArray s)) := by
                simp only [convertValueGo]; rw [hp]
              rw [hgo]; rfl
        · exact absurd rfl hnn
    | num n =>
      rw [aux_convert_some _ _ (by simp) (by simp)] at hnn ⊢
      rcases hT with rfl | rfl | rfl | rfl | rfl
      · exact aux_vv_string _
      · rfl
      · rfl
      · exact absurd rfl hnn
      · exact absurd rfl hnn
    | bool b =>
      rw [aux_convert_some _ _ (by simp) (by simp)] at hnn ⊢
      rcases hT with rfl | rfl | rfl | rfl | rfl
      · exact aux_vv_string _
      · rfl
      · rfl
      · exact absurd rfl hnn
      · exact absurd rfl hnn
    | arr xs =>
      rw [aux_convert_some _ _ (by simp) (by simp)] at hnn ⊢
      rcases hT with rfl | rfl | rfl | rfl | rfl
      · exact aux_vv_string _
      · rcases hn : jsStringToNumber (jsArrJoin xs) with _ | n
        · exact absurd (by simp only [convertValueGo, jsToNumber]; rw [hn]) hnn
        · have hgo : convertValueGo (.arr xs) "number" = some (.num n) := by
            simp only [convertValueGo, jsToNumber]; rw [hn]
          rw [hgo]; rfl
      · rfl
      · rfl
      · exact absurd rfl hnn
    | obj fs =>
      rw [aux_convert_some _ _ (by simp) (by simp)] at hnn ⊢
      rcases hT with rfl | rfl | rfl | rfl | rfl
      · exact aux_vv_string _
      · exact absurd rfl hnn
      · rfl
      · exact absurd rfl hnn
      · exact absurd rfl hnn
    | bigint n =>
      rw [aux_convert_some _ _ (by simp) (by simp)] at hnn ⊢
      rcases hT with rfl | rfl | rfl | rfl | rfl
      · exact aux_vv_string _
      · rfl
      · rfl
      · exact absurd rfl hnn
      · exact absurd rfl hnn

/-- C2 (witness). -/
theorem c2_convert_validates_witness :
    validateValue (convertValue (some (.str "7")) "number") "number" = true :=
  c2_convert_validates (some (.str "7")) "number" (by decide)
    (by intro h
        rw [show convertValue (some (.str "7")) "number" = some (.num 7) from rfl] at h
        simp at h)

/-- C3 (counterexample): `convertValue("yes", 'boolean')` is the JS truthiness
`Boolean("yes") = true`, not `null` as the claim requires for strings other than
the literals `"true"`/`"false"`. -/
theorem c3_counterexample :
    convertValue (some (.str "yes")) "boolean" = some (.bool true) ∧
    convertValue (some (.str "yes")) "boolean" ≠ some .null := by
  constructor
  · rfl
  · intro h
    rw [show convertValue (some (.str "yes")) "boolean" = some (.bool true) from rfl] at h
    simp at h

/-- C3 (amended): for a string input, `convertValue(raw, 'boolean')` returns
`true` for the literal `"true"`, `false` for `"false"`, `null` for the empty
string, and `Boolean(raw) = true` for every other string; it never throws (it is
a total function of its input). -/
theorem c3_boolean_conversion (s : String) :
    convertValue (some (.str s)) "boolean" =
      (if s = "" then some .null
       else if s = "true" then some (.bool true)
       else if s = "false" then some (.bool false)
       else some (.bool true)) := by
  by_cases h0 : s = ""
  · subst h0; rfl
  · by_cases h1 : s = "true"
    · subst h1; rfl
    · by_cases h2 : s = "false"
      · subst h2; rfl
      · simp only [if_neg h0, if_neg h1, if_neg h2]
        rw [aux_convert_some _ _ (by simp) (by simp [h0])]
        rw [aux_convertGo_bool_str s]
        rw [if_neg h1, if_neg h2]
        simp [jsBoolean, h0]

/-- C4 (counterexample): with key `"a"` and a sibling (different id) whose raw key
`" a"` trims to the identical `"a"`, `validateKey` still returns `null`, because
the duplicate check compares the sibling's raw key against the trimmed key. -/
theorem c4_counterexample :
    validateKey "a" [Property.mk "2" " a" "" .string none false none [] none]
        (some "1") = none ∧
    (Property.mk "2" " a" "" .string none false none [] none).id ≠ "1" ∧
    jsTrim (Property.mk "2" " a" "" .string none false none [] none).key = jsTrim "a" := by
  refine ⟨by decide, by decide, by decide⟩

/-- C4 (amended): for a non-empty key, `validateKey(key, siblings, id)` is `null`
iff the trimmed key matches the key grammar and no sibling with a different id has
a *raw* key identical to the trimmed key. -/
theorem c4_validateKey_iff (key : String) (siblings : List Property) (pid : String)
    (hkey : key ≠ "") :
    validateKey key siblings (some pid) = none ↔
      (keyPatternTest (jsTrim key) = true ∧
        ∀ item ∈ siblings, item.id ≠ pid → item.key ≠ jsTrim key) := by
  unfold validateKey
  by_cases ht : jsTrim key = ""
  · have hpat : keyPatternTest (jsTrim key) = false := by rw [ht]; rfl
    simp [hkey, ht, hpat]
    intro h
    exact absurd h (by rw [ht] at hpat; simp [hpat])
  · by_cases hpat : keyPatternTest (jsTrim key) = true
    · rw [if_neg (by simp [hkey, ht])]
      rw [if_neg (by simp [hpat])]
      cases hfind : siblings.find? (fun item =>
          !(some item.id == some pid) && item.key == jsTrim key) with
      | none =>
        rw [List.find?_eq_none] at hfind
        simp only [hpat, true_and]
        constructor
        · intro _ item hmem hid
          have := hfind item hmem
          simp at this
          intro hk
          exact absurd (this (by simpa using hid)) (by simp [hk])
        · intro _; trivial
      | some it =>
        have hmem := List.mem_of_find?_eq_some hfind
        have hprop := List.find?_some hfind
        simp at hprop
        simp only [hpat, true_and]
        constructor
        · intro h; exact absurd h (by simp)
        · intro hall
          exact absurd hprop.2 (hall it hmem (by simpa using hprop.1))
    · have hpat' : keyPatternTest (jsTrim key) = false := by
        cases h : keyPatternTest (jsTrim key)
        · rfl
        · exact absurd h hpat
      simp [hkey, ht, hpat']

/-- C4 (witness). -/
theorem c4_validateKey_iff_witness :
    validateKey "a" [] (some "x") = none ↔
      (keyPatternTest (jsTrim "a") = true ∧
        ∀ item ∈ ([] : List Property), item.id ≠ "x" → item.key ≠ jsTrim "a") :=
  c4_validateKey_iff "a" [] "x" (by decide)

/-- C5 (code bug): `addNestedProperty` *always* returns `null` and never mutates
the store, for every state and parent id — including a state whose parent exists
at depth 0 — because its cycle guard calls
`wouldCreateCircularReference(parentId, parentId, …)`, whose
`propertyId === parentId` disjunct is identically true. -/
theorem c5_addNested_always_refuses (st : SchemaStore) (parentId newId : String) :
    addNestedProperty st parentId newId = (none, st) := by
  unfold addNestedProperty
  cases hfind : st.properties.find? (fun p => p.id == parentId) with
  | none => rfl
  | some p =>
    simp only
    split
    · rfl
    · simp [wouldCreateCircularReference]

/-- C5 (evaluation at the failing input): a store with a single root property
`"p1"` (depth 0, well under the maximum) still gets refused. -/
theorem c5_failing_input_eval :
    (addNestedProperty
        { initialStore with
          properties := [Property.mk "p1" "a" "" .object (some .null) false none [] none] }
        "p1" "p2").1 = none ∧
    getNestingDepth "p1"
        [Property.mk "p1" "a" "" .object (some .null) false none [] none] 0 = 0 := by
  constructor
  · rw [c5_addNested_always_refuses]
  · rw [getNestingDepth]
    decide

/-- C10: both ancestor-walk helpers are total on every collection, cyclic ones
included: `getNestingDepth` (from the external starting depth 0) is capped at 10,
and `getParentChain` returns a finite chain of length at most one more than the
collection size, stopping as soon as it re-encounters a parent id. -/
theorem c10_walk_helpers_total (pid : String) (props : List Property) :
    getNestingDepth pid props 0 ≤ 10 ∧
    (getParentChain pid props []).length ≤ props.length + 1 := by
  constructor
  · exact aux_depth_le 10 pid props 0 (by omega) (by omega)
  · have h := aux_chain_len pid props []
    have hcard : ((props.filterMap Property.parentId).toFinset \
        ([] : List String).toFinset).card ≤ props.length := by
      calc ((props.filterMap Property.parentId).toFinset \
              ([] : List String).toFinset).card
          ≤ (props.filterMap Property.parentId).toFinset.card :=
            Finset.card_le_card (Finset.sdiff_subset)
        _ ≤ (props.filterMap Property.parentId).length := List.toFinset_card_le _
        _ ≤ props.length := List.length_filterMap_le _ _
    simp only [List.length_nil] at h
    omega

/-- `mergeProp` never changes the id. -/
lemma aux_mergeProp_id (p : Property) (u : PropertyUpdate) : (mergeProp p u).id = p.id := rfl

/-- Locating the merged property after an update, under unique ids. -/
lemma aux_find_merged (props : List Property) (u : PropertyUpdate) (id : String)
    (p : Property) (hp : p ∈ props) (hid : p.id = id)
    (hnodup : (props.map Property.id).Nodup) :
    (props.map (fun q => if q.id == id then mergeProp q u else q)).find?
        (fun q => q.id == id) = some (mergeProp p u) := by
  induction props with
  | nil => cases hp
  | cons q rest ih =>
    simp only [List.map_cons, List.nodup_cons, List.mem_map] at hnodup
    by_cases hq : q.id = id
    · have hpq : p = q := by
        rcases List.mem_cons.mp hp with rfl | hmem
        · rfl
        · exact absurd ⟨p, hmem, by rw [hid, hq]⟩ hnodup.1
      subst hpq
      simp only [List.map_cons]
      rw [show (if (p.id == id) = true then mergeProp p u else p) = mergeProp p u from
        if_pos (by simpa using hq)]
      exact List.find?_cons_of_pos _ (by simp [aux_mergeProp_id, hq])
    · have hmem : p ∈ rest := by
        rcases List.mem_cons.mp hp with rfl | hmem
        · exact absurd hid hq
        · exact hmem
      simp only [List.map_cons, if_neg (by simpa using hq)]
      rw [List.find?_cons_of_neg]
      · exact ih hmem hnodup.2
      · simp [hq]

/-- C8: `addProperty` appends the fresh empty-keyed property, returns its id and
leaves `schema`, `schemaString` and `isValid` untouched; `updateProperty` merges
the partial fields into the matching property and regenerates the schema iff the
resulting key is non-empty after trimming. -/
theorem c8_add_update_frame
    (st : SchemaStore) (parentId : Option String) (newId : String)
    (st₂ : SchemaStore) (id : String) (u : PropertyUpdate) (p : Property)
    (hp : p ∈ st₂.properties) (hid : p.id = id)
    (hnodup : (st₂.properties.map Property.id).Nodup) :
    ((addProperty st parentId newId).1 = newId ∧
      (addProperty st parentId newId).2.properties =
        st.properties ++ [Property.mk newId "" "" .string (some .null) false parentId [] none] ∧
      (addProperty st parentId newId).2.schema = st.schema ∧
      (addProperty st parentId newId).2.schemaString = st.schemaString ∧
      (addProperty st parentId newId).2.isValid = st.isValid) ∧
    ((updateProperty st₂ id u).properties =
        st₂.properties.map (fun q => if q.id == id then mergeProp q u else q) ∧
      (jsTrim (mergeProp p u).key ≠ "" →
        updateProperty st₂ id u =
          generateSchema
            { st₂ with
              properties := st₂.properties.map (fun q => if q.id == id then mergeProp q u else q) }) ∧
      (jsTrim (mergeProp p u).key = "" →
        (updateProperty st₂ id u).schema = st₂.schema ∧
        (updateProperty st₂ id u).schemaString = st₂.schemaString ∧
        (updateProperty st₂ id u).isValid = st₂.isValid)) := by
  have hfind := aux_find_merged st₂.properties u id p hp hid hnodup
  constructor
  · exact ⟨rfl, rfl, rfl, rfl, rfl⟩
  · unfold updateProperty
    dsimp only
    rw [hfind]
    dsimp only
    by_cases htrim : jsTrim (mergeProp p u).key = ""
    · rw [if_neg (by simp [htrim])]
      refine ⟨rfl, fun hne => absurd htrim hne, fun _ => ⟨rfl, rfl, rfl⟩⟩
    · have hkey : (mergeProp p u).key ≠ "" := by
        intro hk
        exact htrim (by rw [hk]; rfl)
      rw [if_pos (by simp [htrim, hkey])]
      refine ⟨?_, fun _ => rfl, fun heq => absurd heq htrim⟩
      rfl

/-- C8 (witness). -/
theorem c8_add_update_frame_witness :
    (((addProperty initialStore none "n1").1 = "n1" ∧
      (addProperty initialStore none "n1").2.properties =
        initialStore.properties ++ [Property.mk "n1" "" "" .string (some .null) false none [] none] ∧
      (addProperty initialStore none "n1").2.schema = initialStore.schema ∧
      (addProperty initialStore none "n1").2.schemaString = initialStore.schemaString ∧
      (addProperty initialStore none "n1").2.isValid = initialStore.isValid) ∧
    ((updateProperty
        { initialStore with
          properties := [Property.mk "q1" "k" "" .string (some .null) false none [] none] }
        "q1" (PropertyUpdate.mk none none none none none none none none)).properties =
        ({ initialStore with
          properties := [Property.mk "q1" "k" "" .string (some .null) false none [] none] } :
            SchemaStore).properties.map
          (fun q => if q.id == "q1" then
            mergeProp q (PropertyUpdate.mk none none none none none none none none) else q) ∧
      (jsTrim (mergeProp (Property.mk "q1" "k" "" .string (some .null) false none [] none)
          (PropertyUpdate.mk none none none none none none none none)).key ≠ "" →
        updateProperty
          { initialStore with
            properties := [Property.mk "q1" "k" "" .string (some .null) false none [] none] }
          "q1" (PropertyUpdate.mk none none none none none none none none) =
          generateSchema
            { ({ initialStore with
                properties := [Property.mk "q1" "k" "" .string (some .null) false none [] none] } :
                  SchemaStore) with
              properties := ({ initialStore with
                properties := [Property.mk "q1" "k" "" .string (some .null) false none [] none] } :
                  SchemaStore).properties.map
                (fun q => if q.id == "q1" then
                  mergeProp q (PropertyUpdate.mk none none none none none none none none) else q) }) ∧
      (jsTrim (mergeProp (Property.mk "q1" "k" "" .string (some .null) false none [] none)
          (PropertyUpdate.mk none none none none none none none none)).key = "" →
        (updateProperty
          { initialStore with
            properties := [Property.mk "q1" "k" "" .string (some .null) false none [] none] }
          "q1" (PropertyUpdate.mk none none none none none none none none)).schema =
          ({ initialStore with
            properties := [Property.mk "q1" "k" "" .string (some .null) false none [] none] } :
              SchemaStore).schema ∧
        (updateProperty
          { initialStore with
            properties := [Property.mk "q1" "k" "" .string (some .null) false none [] none] }
          "q1" (PropertyUpdate.mk none none none none none none none none)).schemaString =
          ({ initialStore with
            properties := [Property.mk "q1" "k" "" .string (some .null) false none [] none] } :
              SchemaStore).schemaString ∧
        (updateProperty
          { initialStore with
            properties := [Property.mk "q1" "k" "" .string (some .null) false none [] none] }
          "q1" (PropertyUpdate.mk none none none none none none none none)).isValid =
          ({ initialStore with
            properties := [Property.mk "q1" "k" "" .string (some .null) false none [] none] } :
              SchemaStore).isValid))) :=
  c8_add_update_frame initialStore none "n1"
    { initialStore with
      properties := [Property.mk "q1" "k" "" .string (some .null) false none [] none] }
    "q1" (PropertyUpdate.mk none none none none none none none none)
    (Property.mk "q1" "k" "" .string (some .null) false none [] none)
    (by simp) rfl (by simp)

/-- C7 (counterexample): restoring the empty array is a silent no-op (the code
returns early after `savedProperties.length === 0`), so a non-empty collection is
not replaced, contrary to the claim's "including the empty array". -/
theorem c7_counterexample :
    restoreProperties
        { initialStore with
          properties := [Property.mk "p1" "a" "" .string (some .null) false none [] none] }
        [] (fun n => toString n) =
      { initialStore with
        properties := [Property.mk "p1" "a" "" .string (some .null) false none [] none] } ∧
    ([Property.mk "p1" "a" "" .string (some .null) false none [] none] : List Property) ≠ [] := by
  refine ⟨rfl, by simp⟩

/-- C7 (amended): for every NON-empty array of saved records, `restoreProperties`
replaces the collection with the normalized copy (missing id ⇒ fresh id, missing
key/description ⇒ `''`, missing type ⇒ `string`, missing value ⇒ `null`, missing
required ⇒ `false`, missing parentId ⇒ `null`, missing child list ⇒ `[]`), clears
the selection, and regenerates schema and schema string from exactly the subset of
restored records with non-empty trimmed keys. -/
theorem c7_restore_replaces (st : SchemaStore) (saved : List SavedProperty)
    (fresh : Nat → String) (h : saved ≠ []) :
    (restoreProperties st saved fresh).properties =
      saved.enum.map (fun ip =>
        Property.mk
          (match ip.2.id with
           | some i => if i == "" then fresh ip.1 else i
           | none => fresh ip.1)
          ((ip.2.key).getD "") ((ip.2.description).getD "") ((ip.2.type).getD .string)
          (match ip.2.value with | some v => some v | none => some .null)
          ((ip.2.required).getD false)
          (match ip.2.parentId with | some x => x | none => none)
          ((ip.2.properties).getD []) none) ∧
    (restoreProperties st saved fresh).selectedPropertyId = none ∧
    (restoreProperties st saved fresh).schema =
      propertiesToSchema
        (((restoreProperties st saved fresh).properties).filter hasValidKey) ∧
    (restoreProperties st saved fresh).schemaString =
      formatJSON (schemaToJson (propertiesToSchema
        (((restoreProperties st saved fresh).properties).filter hasValidKey))) := by
  have hne : saved.isEmpty = false := by
    cases saved with
    | nil => exact absurd rfl h
    | cons a l => rfl
  unfold restoreProperties
  rw [hne]
  exact ⟨rfl, rfl, rfl, rfl⟩

/-- C7 (witness). -/
theorem c7_restore_replaces_witness :
    (restoreProperties initialStore
        [SavedProperty.mk none (some "a") none none none none none none]
        (fun n => toString n)).properties =
      [SavedProperty.mk none (some "a") none none none none none none].enum.map (fun ip =>
        Property.mk
          (match ip.2.id with
           | some i => if i == "" then toString ip.1 else i
           | none => toString ip.1)
          ((ip.2.key).getD "") ((ip.2.description).getD "") ((ip.2.type).getD .string)
          (match ip.2.value with | some v => some v | none => some .null)
          ((ip.2.required).getD false)
          (match ip.2.parentId with | some x => x | none => none)
          ((ip.2.properties).getD []) none) ∧
    (restoreProperties initialStore
        [SavedProperty.mk none (some "a") none none none none none none]
        (fun n => toString n)).selectedPropertyId = none ∧
    (restoreProperties initialStore
        [SavedProperty.mk none (some "a") none none none none none none]
        (fun n => toString n)).schema =
      propertiesToSchema
        (((restoreProperties initialStore
            [SavedProperty.mk none (some "a") none none none none none none]
            (fun n => toString n)).properties).filter hasValidKey) ∧
    (restoreProperties initialStore
        [SavedProperty.mk none (some "a") none none none none none none]
        (fun n => toString n)).schemaString =
      formatJSON (schemaToJson (propertiesToSchema
        (((restoreProperties initialStore
            [SavedProperty.mk none (some "a") none none none none none none]
            (fun n => toString n)).properties).filter hasValidKey))) :=
  c7_restore_replaces initialStore
    [SavedProperty.mk none (some "a") none none none none none none]
    (fun n => toString n) (by simp)

/-- C9 (counterexample): a store whose one property carries a `BigInt` default
makes `JSON.stringify` throw; `generateSchema` then stores `"{}"` as the string,
but `isValid` ends up `true` (the fallback `"{}"` reparses) — not `false` — and
the freshly built structural schema (with one entry) replaces the previous one. -/
theorem c9_counterexample :
    jsonStringify (schemaToJson (propertiesToSchema
        ([Property.mk "p1" "a" "" .string (some (.bigint 1)) false none [] none].filter
          hasValidKey))) = none ∧
    (generateSchema
        { initialStore with
          properties :=
            [Property.mk "p1" "a" "" .string (some (.bigint 1)) false none [] none] }).schemaString
      = "{}" ∧
    (generateSchema
        { initialStore with
          properties :=
            [Property.mk "p1" "a" "" .string (some (.bigint 1)) false none [] none] }).isValid
      = true ∧
    (((generateSchema
        { initialStore with
          properties :=
            [Property.mk "p1" "a" "" .string (some (.bigint 1)) false none [] none] }).schema.properties).getD
      []).length = 1 := by
  exact ⟨rfl, rfl, rfl, rfl⟩

/-- C9 (amended): whenever serializing the freshly generated schema fails,
`generateSchema` falls back to the string `"{}"`, sets `isValid` to `true` (the
fallback reparses successfully), and installs the freshly generated structural
schema object. -/
theorem c9_serialize_failure (st : SchemaStore)
    (h : jsonStringify (schemaToJson (propertiesToSchema
        (st.properties.filter hasValidKey))) = none) :
    (generateSchema st).schemaString = "{}" ∧
    (generateSchema st).isValid = true ∧
    (generateSchema st).schema = propertiesToSchema (st.properties.filter hasValidKey) := by
  unfold generateSchema
  dsimp only
  refine ⟨?_, ?_, rfl⟩
  · show formatJSON (schemaToJson (propertiesToSchema (st.properties.filter hasValidKey))) = "{}"
    unfold formatJSON
    rw [h]
    rfl
  · show (jsonParse (formatJSON (schemaToJson
        (propertiesToSchema (st.properties.filter hasValidKey))))).isSome = true
    unfold formatJSON
    rw [h]
    rfl

/-- C9 (witness). -/
theorem c9_serialize_failure_witness :
    (generateSchema
        { initialStore with
          properties :=
            [Property.mk "p2" "b" "" .string (some (.bigint 3)) false none [] none] }).schemaString
      = "{}" ∧
    (generateSchema
        { initialStore with
          properties :=
            [Property.mk "p2" "b" "" .string (some (.bigint 3)) false none [] none] }).isValid
      = true ∧
    (generateSchema
        { initialStore with
          properties :=
            [Property.mk "p2" "b" "" .string (some (.bigint 3)) false none [] none] }).schema =
      propertiesToSchema
        (({ initialStore with
            properties :=
              [Property.mk "p2" "b" "" .string (some (.bigint 3)) false none [] none] } :
            SchemaStore).properties.filter hasValidKey) :=
  c9_serialize_failure
    { initialStore with
      properties := [Property.mk "p2" "b" "" .string (some (.bigint 3)) false none [] none] }
    rfl

/-- Members of a path are in the collection. -/
lemma aux_descPath_mem {props : List Property} {root : String} {p : Property} {n : Nat}
    (h : DescPath props root p n) : p ∈ props := by
  cases h with
  | base p hp hpid => exact hp
  | cons p q n hp hpid hq => exact hp

/-- Paths have positive length. -/
lemma aux_descPath_pos {props : List Property} {root : String} {p : Property} {n : Nat}
    (h : DescPath props root p n) : 1 ≤ n := by
  cases h with
  | base p hp hpid => omega
  | cons p q n hp hpid hq => omega

/-- With unique ids, `find?` by a member's id returns that member. -/
lemma aux_find_self {props : List Property} {p : Property}
    (hnodup : (props.map Property.id).Nodup) (hp : p ∈ props) :
    props.find? (fun q => q.id == p.id) = some p := by
  induction props with
  | nil => cases hp
  | cons a rest ih =>
    simp only [List.map_cons, List.nodup_cons, List.mem_map] at hnodup
    rcases List.mem_cons.mp hp with rfl | hmem
    · exact List.find?_cons_of_pos _ (by simp)
    · rw [List.find?_cons_of_neg]
      · exact ih hnodup.2 hmem
      · simp
        intro hid
        exact absurd ⟨p, hmem, hid.symm⟩ hnodup.1

/-- With unique ids, members are determined by their id. -/
lemma aux_same_id {props : List Property} {p q : Property}
    (hnodup : (props.map Property.id).Nodup) (hp : p ∈ props) (hq : q ∈ props)
    (hid : p.id = q.id) : p = q := by
  have h1 := aux_find_self hnodup hp
  have h2 := aux_find_self hnodup hq
  rw [hid] at h1
  rw [h1] at h2
  exact Option.some.inj h2

/-- A path to `root` puts `root` on the ancestor walk, within the walk's fuel. -/
lemma aux_path_walk {props : List Property} (hnodup : (props.map Property.id).Nodup)
    {root : String} {p : Property} {n : Nat} (hpath : DescPath props root p n) :
    ∀ f, walkEnds f props p.parentId = true →
      root ∈ ancIds f props p.parentId ∧ n ≤ f := by
  induction hpath with
  | base p hp hpid =>
    intro f hw
    rw [hpid] at hw ⊢
    cases f with
    | zero => exact absurd hw (by simp [walkEnds])
    | succ g =>
      constructor
      · rw [ancIds]
        exact List.mem_cons_self _ _
      · omega
  | cons p q n hp hpid hq ih =>
    intro f hw
    rw [hpid] at hw ⊢
    cases f with
    | zero => exact absurd hw (by simp [walkEnds])
    | succ g =>
      have hqmem : q ∈ props := aux_descPath_mem hq
      have hfind : props.find? (fun r => r.id == q.id) = some q := aux_find_self hnodup hqmem
      rw [walkEnds, hfind] at hw
      have := ih g hw
      constructor
      · rw [ancIds, hfind]
        exact List.mem_cons_of_mem _ this.1
      · omega

/-- Membership of `root` on the ancestor walk yields a path. -/
lemma aux_walk_path {props : List Property} {root : String} :
    ∀ (f : Nat) (p : Property), p ∈ props → root ∈ ancIds f props p.parentId →
      ∃ n, DescPath props root p n := by
  intro f
  induction f with
  | zero =>
    intro p hp hmem
    cases hpid : p.parentId with
    | none => rw [hpid] at hmem; simp [ancIds] at hmem
    | some i => rw [hpid] at hmem; simp [ancIds] at hmem
  | succ g ih =>
    intro p hp hmem
    cases hpid : p.parentId with
    | none => rw [hpid] at hmem; simp [ancIds] at hmem
    | some i =>
      rw [hpid, ancIds] at hmem
      rcases List.mem_cons.mp hmem with rfl | hrest
      · exact ⟨1, .base p hp (by rw [hpid])⟩
      · cases hfind : props.find? (fun q => q.id == i) with
        | none => rw [hfind] at hrest; simp at hrest
        | some q =>
          rw [hfind] at hrest
          have hqmem : q ∈ props := List.mem_of_find?_eq_some hfind
          have hqid : q.id = i := by simpa using List.find?_some hfind
          rcases ih q hqmem hrest with ⟨n, hpn⟩
          exact ⟨n + 1, .cons p q n hp (by rw [hpid, hqid]) hpn⟩

/-- Concatenation of paths: a path from `p` to `q.id` over a path from `q` to
`root`. -/
lemma aux_path_trans {props : List Property} {q : Property} {p : Property} {m : Nat}
    (h1 : DescPath props q.id p m) {root : String} {n : Nat}
    (h2 : DescPath props root q n) : DescPath props root p (m + n) := by
  induction h1 with
  | base p hp hpid =>
    exact (Nat.add_comm n 1) ▸ .cons p q n hp hpid h2
  | cons p q' k hp hpid hq' ih =>
    exact (by omega : k + n + 1 = k + 1 + n) ▸ .cons p q' (k + n) hp hpid ih

/-- Under acyclicity there is no path from a property to its own id. -/
lemma aux_no_self_path {props : List Property} (hnodup : (props.map Property.id).Nodup)
    (hacyc : Acyclic props) {p : Property} {n : Nat} :
    ¬ DescPath props p.id p n := by
  intro hpath
  have hp : p ∈ props := aux_descPath_mem hpath
  have hpow : ∀ k : Nat, DescPath props p.id p (n + k * n) := by
    intro k
    induction k with
    | zero => simpa using hpath
    | succ k ihk =>
      have := aux_path_trans hpath ihk
      have harith : n + (n + k * n) = n + (k + 1) * n := by ring
      exact harith ▸ this
  have hbig := hpow (props.length + 1)
  have hwalk := hacyc p hp
  have hle := (aux_path_walk hnodup hbig props.length hwalk).2
  have hn1 := aux_descPath_pos hpath
  have : n + (props.length + 1) * n ≥ props.length + 1 := by nlinarith
  omega

/-- Every id collected by `findNestedIds` is the id of a member reachable from
`x` by a parent-link path of length at most the fuel. -/
lemma aux_findNested_path {props : List Property} :
    ∀ (f : Nat) (x : String) (d : String), d ∈ findNestedIds f props x →
      ∃ q ∈ props, q.id = d ∧ ∃ n, DescPath props x q n ∧ n ≤ f := by
  intro f
  induction f with
  | zero => intro x d hd; simp [findNestedIds] at hd
  | succ g ih =>
    intro x d hd
    rw [findNestedIds] at hd
    rcases List.mem_append.mp hd with hhead | htail
    · simp only [List.mem_map, List.mem_filter] at hhead
      rcases hhead with ⟨q, ⟨hqmem, hqpid⟩, hqid⟩
      exact ⟨q, hqmem, hqid, 1, .base q hqmem (by simpa using hqpid), by omega⟩
    · simp only [List.mem_flatten, List.mem_map] at htail
      rcases htail with ⟨l, ⟨cid, hcid, hl⟩, hdl⟩
      simp only [List.mem_map, List.mem_filter] at hcid
      rcases hcid with ⟨c, ⟨hcmem, hcpid⟩, hcid⟩
      rw [← hl] at hdl
      rcases ih cid d hdl with ⟨q, hqmem, hqid, n, hpath, hn⟩
      refine ⟨q, hqmem, hqid, n + 1, ?_, by omega⟩
      have h1 : DescPath props c.id q n := by rw [hcid]; exact hpath
      have h2 : DescPath props x c 1 := .base c hcmem (by simpa using hcpid)
      simpa using aux_path_trans h1 h2

/-- Root-side inversion of a path. -/
lemma aux_path_root_inv {props : List Property} {x : String} {p : Property} {n : Nat}
    (h : DescPath props x p n) :
    (n = 1 ∧ p.parentId = some x) ∨
      (∃ c ∈ props, c.parentId = some x ∧ ∃ m, DescPath props c.id p m ∧ n = m + 1) := by
  induction h with
  | base p hp hpid => exact Or.inl ⟨rfl, hpid⟩
  | cons p q k hp hpid hq ih =>
    rcases ih with ⟨rfl, hqpid⟩ | ⟨c, hcmem, hcpid, m, hcm, rfl⟩
    · exact Or.inr ⟨q, aux_descPath_mem hq, hqpid, 1, .base p hp hpid, rfl⟩
    · exact Or.inr ⟨c, hcmem, hcpid, m + 1, .cons p q m hp hpid hcm, rfl⟩

/-- A path of length within the fuel puts the property's id into
`findNestedIds`. -/
lemma aux_path_findNested {props : List Property} :
    ∀ (n : Nat) (x : String) (p : Property) (f : Nat),
      DescPath props x p n → n ≤ f → p.id ∈ findNestedIds f props x := by
  intro n
  induction n using Nat.strong_induction_on with
  | _ n ihn =>
    intro x p f hpath hnf
    have h1 := aux_descPath_pos hpath
    obtain ⟨g, rfl⟩ : ∃ g, f = g + 1 := ⟨f - 1, by omega⟩
    rw [findNestedIds]
    rcases aux_path_root_inv hpath with ⟨rfl, hpid⟩ | ⟨c, hcmem, hcpid, m, hcm, rfl⟩
    · apply List.mem_append_left
      simp only [List.mem_map, List.mem_filter]
      exact ⟨p, ⟨aux_descPath_mem hpath, by simp [hpid]⟩, rfl⟩
    · apply List.mem_append_right
      simp only [List.mem_flatten, List.mem_map]
      refine ⟨findNestedIds g props c.id, ⟨c.id, ?_, rfl⟩, ?_⟩
      · simp only [List.mem_map, List.mem_filter]
        exact ⟨c, ⟨hcmem, by simp [hcpid]⟩, rfl⟩
      · exact ihn m (by omega) c.id p g hcm (by omega)

/-- Counting a disjunction of disjoint Boolean predicates. -/
lemma aux_countP_disjoint {α : Type} (l : List α) (p q : α → Bool)
    (hdisj : ∀ a ∈ l, ¬(p a = true ∧ q a = true)) :
    l.countP (fun a => p a || q a) = l.countP p + l.countP q := by
  induction l with
  | nil => simp
  | cons a rest ih =>
    have hrest := ih (fun b hb => hdisj b (List.mem_cons_of_mem a hb))
    have ha := hdisj a (List.mem_cons_self a rest)
    by_cases hpa : p a = true
    · have hqa : q a = false := by
        cases h : q a
        · rfl
        · exact absurd ⟨hpa, h⟩ ha
      simp [List.countP_cons, hpa, hqa, hrest]
      omega
    · have hpa' : p a = false := Bool.eq_false_iff.mpr hpa
      by_cases hqa : q a = true
      · simp [List.countP_cons, hpa', hqa, hrest]
        omega
      · have hqa' : q a = false := Bool.eq_false_iff.mpr hqa
        simp [List.countP_cons, hpa', hqa', hrest]

/-- Pointwise-equal predicates on members count the same. -/
lemma aux_countP_congr {α : Type} (l : List α) (p q : α → Bool)
    (h : ∀ a ∈ l, p a = q a) : l.countP p = l.countP q := by
  induction l with
  | nil => simp
  | cons a rest ih =>
    have hrest := ih (fun b hb => h b (List.mem_cons_of_mem a hb))
    have ha := h a (List.mem_cons_self a rest)
    simp [List.countP_cons, ha, hrest]

/-- Filter length as a subtraction of the complement count. -/
lemma aux_length_filter_not {α : Type} (l : List α) (p : α → Bool) :
    (l.filter (fun a => !(p a))).length = l.length - l.countP p := by
  induction l with
  | nil => simp
  | cons a rest ih =>
    have hle : rest.countP p ≤ rest.length := List.countP_le_length _
    by_cases hpa : p a = true
    · simp [List.filter_cons, List.countP_cons, hpa, ih]
    · have hpa' : p a = false := Bool.eq_false_iff.mpr hpa
      simp [List.filter_cons, List.countP_cons, hpa', ih]
      omega

/-- With unique ids, a present id is counted exactly once. -/
lemma aux_countP_id_eq_one {props : List Property} {x : String} {xp : Property}
    (hnodup : (props.map Property.id).Nodup) (hxp : xp ∈ props) (hxid : xp.id = x) :
    props.countP (fun p => p.id == x) = 1 := by
  induction props with
  | nil => cases hxp
  | cons a rest ih =>
    simp only [List.map_cons, List.nodup_cons, List.mem_map] at hnodup
    rcases List.mem_cons.mp hxp with rfl | hmem
    · have hrest : rest.countP (fun p => p.id == x) = 0 := by
        rw [List.countP_eq_zero]
        intro q hq
        simp only [beq_iff_eq]
        intro hqid
        exact absurd ⟨q, hq, by rw [hqid, hxid]⟩ hnodup.1
      simp [List.countP_cons, hxid, hrest]
    · have ha : (a.id == x) = false := by
        simp only [beq_eq_false_iff_ne, ne_eq]
        intro haid
        exact absurd ⟨xp, hmem, by rw [hxid, ← haid]⟩ hnodup.1
      simp [List.countP_cons, ha, ih hnodup.2 hmem]

/-- Boolean extensionality from an `iff` of truth. -/
lemma aux_bool_eq_of_iff {a b : Bool} (h : a = true ↔ b = true) : a = b := by
  cases a <;> cases b <;> simp_all

/-- C6: removing a property with exactly N transitive descendants shrinks the
collection by exactly N+1, and afterwards no remaining property has a deleted id
as its `parentId`. -/
theorem c6_remove_cascade (st : SchemaStore) (x : String) (xp : Property)
    (hxp : xp ∈ st.properties) (hxid : xp.id = x)
    (hnodup : (st.properties.map Property.id).Nodup)
    (hacyc : Acyclic st.properties) :
    (removeProperty st x).properties.length =
      st.properties.length
        - (st.properties.countP (isTransDescendant st.properties x) + 1) ∧
    (∀ p ∈ (removeProperty st x).properties, ∀ d,
      d ∈ (x :: findNestedIds st.properties.length st.properties x) →
        p.parentId ≠ some d) := by
  have hlen1 : 1 ≤ st.properties.length :=
    List.length_pos.mpr (List.ne_nil_of_mem hxp)
  have hprops_eq : (removeProperty st x).properties =
      st.properties.filter (fun p =>
        !((x :: findNestedIds st.properties.length st.properties x).contains p.id)) := rfl
  -- membership in the removed-id list agrees with x-or-descendant
  have hiff : ∀ p ∈ st.properties,
      ((x :: findNestedIds st.properties.length st.properties x).contains p.id = true ↔
        (p.id == x || isTransDescendant st.properties x p) = true) := by
    intro p hp
    rw [List.elem_iff]
    constructor
    · intro hmem
      rcases List.mem_cons.mp hmem with hx | hfind
      · simp [hx]
      · rcases aux_findNested_path _ x p.id hfind with ⟨q, hq, hqid, n, hpath, _⟩
        have hqp : q = p := aux_same_id hnodup hq hp hqid
        subst hqp
        have hwalk := (aux_path_walk hnodup hpath st.properties.length (hacyc q hp)).1
        simp only [Bool.or_eq_true, beq_iff_eq]
        right
        rw [isTransDescendant, List.elem_iff]
        exact hwalk
    · intro hor
      rcases Bool.or_eq_true _ _ |>.mp hor with hx | hdesc
      · exact List.mem_cons.mpr (Or.inl (by simpa using hx))
      · rw [isTransDescendant, List.elem_iff] at hdesc
        rcases aux_walk_path st.properties.length p hp hdesc with ⟨n, hpath⟩
        have hle := (aux_path_walk hnodup hpath st.properties.length (hacyc p hp)).2
        exact List.mem_cons.mpr (Or.inr (aux_path_findNested n x p _ hpath hle))
  -- no property is both x itself and a descendant of x
  have hdisj : ∀ p ∈ st.properties,
      ¬((p.id == x) = true ∧ isTransDescendant st.properties x p = true) := by
    intro p hp ⟨hpx, hdesc⟩
    have hpxp : p = xp := aux_same_id hnodup hp hxp (by simpa [hxid] using hpx)
    subst hpxp
    rw [isTransDescendant, List.elem_iff] at hdesc
    rcases aux_walk_path st.properties.length p hp hdesc with ⟨n, hpath⟩
    have hx' : x = p.id := by
      have : p.id = x := by simpa using hpx
      exact this.symm
    rw [hx'] at hpath
    exact aux_no_self_path hnodup hacyc hpath
  constructor
  · rw [hprops_eq, aux_length_filter_not]
    have hcount : st.properties.countP (fun p =>
        (x :: findNestedIds st.properties.length st.properties x).contains p.id) =
        st.properties.countP (fun p => p.id == x || isTransDescendant st.properties x p) :=
      aux_countP_congr _ _ _ (fun p hp => aux_bool_eq_of_iff (hiff p hp))
    rw [hcount, aux_countP_disjoint _ _ _ hdisj,
      aux_countP_id_eq_one hnodup hxp hxid]
    omega
  · intro p hp d hd hpd
    rw [hprops_eq] at hp
    rcases List.mem_filter.mp hp with ⟨hpmem, hpflag⟩
    -- build a path from p to x through d
    have hpath : ∃ n, DescPath st.properties x p n := by
      rcases List.mem_cons.mp hd with rfl | hfind
      · exact ⟨1, .base p hpmem hpd⟩
      · rcases aux_findNested_path _ x d hfind with ⟨q, hq, hqid, n, hqpath, _⟩
        refine ⟨n + 1, .cons p q n hpmem ?_ hqpath⟩
        rw [hpd, hqid]
      
    rcases hpath with ⟨n, hpath⟩
    have hle := (aux_path_walk hnodup hpath st.properties.length (hacyc p hpmem)).2
    have hin := aux_path_findNested n x p _ hpath hle
    have : (x :: findNestedIds st.properties.length st.properties x).contains p.id = true := by
      rw [List.elem_iff]
      exact List.mem_cons_of_mem _ hin
    rw [this] at hpflag
    simp at hpflag

/-- C6 (witness): a root `r1` with one child `c1`; removal deletes both
(2 = 2 - (1+1) = 0 remaining) and leaves no dangling parent reference. -/
theorem c6_remove_cascade_witness :
    (removeProperty
        { initialStore with
          properties :=
            [Property.mk "r1" "r" "" .object (some .null) false none [] none,
             Property.mk "c1" "c" "" .string (some .null) false (some "r1") [] none] }
        "r1").properties.length =
      [Property.mk "r1" "r" "" .object (some .null) false none [] none,
       Property.mk "c1" "c" "" .string (some .null) false (some "r1") [] none].length
        - ([Property.mk "r1" "r" "" .object (some .null) false none [] none,
            Property.mk "c1" "c" "" .string (some .null) false (some "r1") [] none].countP
            (isTransDescendant
              [Property.mk "r1" "r" "" .object (some .null) false none [] none,
               Property.mk "c1" "c" "" .string (some .null) false (some "r1") [] none] "r1")
            + 1) ∧
    (∀ p ∈ (removeProperty
        { initialStore with
          properties :=
            [Property.mk "r1" "r" "" .object (some .null) false none [] none,
             Property.mk "c1" "c" "" .string (some .null) false (some "r1") [] none] }
        "r1").properties, ∀ d,
      d ∈ ("r1" :: findNestedIds
        [Property.mk "r1" "r" "" .object (some .null) false none [] none,
         Property.mk "c1" "c" "" .string (some .null) false (some "r1") [] none].length
        [Property.mk "r1" "r" "" .object (some .null) false none [] none,
         Property.mk "c1" "c" "" .string (some .null) false (some "r1") [] none] "r1") →
        p.parentId ≠ some d) :=
  c6_remove_cascade
    { initialStore with
      properties :=
        [Property.mk "r1" "r" "" .object (some .null) false none [] none,
         Property.mk "c1" "c" "" .string (some .null) false (some "r1") [] none] }
    "r1" (Property.mk "r1" "r" "" .object (some .null) false none [] none)
    (by simp) rfl (by decide)
    (by intro p hp
        fin_cases hp <;> decide)

/-! ### Round-trip stage 1: filters, key uniqueness, map building -/

lemma aux_hasValidKey_of (p : Property) (h : jsTrim p.key ≠ "") : hasValidKey p = true := by
  have hk : p.key ≠ "" := by
    intro hk
    apply h
    rw [hk]
    rfl
  simp [hasValidKey, hk, h]

lemma aux_roots_filter (P : List Property)
    (H1 : ∀ p ∈ P, jsTrim p.key ≠ "")
    (H4 : ∀ p ∈ P, p.parentId = none ∨
      ∃ q ∈ P, p.parentId = some q.id ∧ q.type = .object ∧ q.parentId = none)
    (H7 : ∀ p ∈ P, p.id ≠ "") :
    P.filter (fun p => jsFalsyOptId p.parentId && hasValidKey p) = rootsOf P := by
  unfold rootsOf
  apply List.filter_congr
  intro p hp
  have hkey := aux_hasValidKey_of p (H1 p hp)
  rcases H4 p hp with hnone | ⟨q, hq, hpid, _, _⟩
  · simp [hnone, jsFalsyOptId, hkey]
  · have hqid := H7 q hq
    simp [hpid, jsFalsyOptId, hqid, hkey]

lemma aux_children_filter (P : List Property) (r : Property)
    (H1 : ∀ p ∈ P, jsTrim p.key ≠ "") :
    P.filter (fun p => p.parentId == some r.id && hasValidKey p) = childrenOf P r := by
  unfold childrenOf
  apply List.filter_congr
  intro p hp
  simp [aux_hasValidKey_of p (H1 p hp)]

lemma aux_no_grandchildren (P : List Property)
    (H3 : (P.map Property.id).Nodup)
    (H4 : ∀ p ∈ P, p.parentId = none ∨
      ∃ q ∈ P, p.parentId = some q.id ∧ q.type = .object ∧ q.parentId = none)
    (c : Property) (hc : c ∈ P) (hcpid : c.parentId ≠ none) :
    childrenOf P c = [] := by
  unfold childrenOf
  rw [List.filter_eq_nil_iff]
  intro p hp
  simp only [beq_iff_eq]
  intro hpeq
  rcases H4 p hp with hnone | ⟨q, hq, hpid, _, hqroot⟩
  · rw [hnone] at hpeq; cases hpeq
  · rw [hpid] at hpeq
    have hqc : q = c := aux_same_id H3 hq hc (Option.some.inj hpeq)
    rw [hqc] at hqroot
    exact hcpid hqroot

lemma aux_pairwise_unique {l : List Property}
    (hl : l.Pairwise (fun p q => p.parentId = q.parentId → p.key ≠ q.key))
    {a b : Property} (ha : a ∈ l) (hb : b ∈ l) (hpid : a.parentId = b.parentId)
    (hkey : a.key = b.key) : a = b := by
  induction l with
  | nil => cases ha
  | cons x xs ih =>
    rcases List.pairwise_cons.mp hl with ⟨hx, hxs⟩
    rcases List.mem_cons.mp ha with rfl | ha'
    · rcases List.mem_cons.mp hb with rfl | hb'
      · rfl
      · exact absurd hkey (hx b hb' hpid)
    · rcases List.mem_cons.mp hb with rfl | hb'
      · exact absurd hkey.symm (hx a ha' hpid.symm)
      · exact ih hxs ha' hb'

lemma aux_key_unique {l : List Property}
    (hl : l.Pairwise (fun a b => a.key ≠ b.key))
    {a b : Property} (ha : a ∈ l) (hb : b ∈ l) (hkey : a.key = b.key) : a = b := by
  induction l with
  | nil => cases ha
  | cons x xs ih =>
    rcases List.pairwise_cons.mp hl with ⟨hx, hxs⟩
    rcases List.mem_cons.mp ha with rfl | ha'
    · rcases List.mem_cons.mp hb with rfl | hb'
      · rfl
      · exact absurd hkey (hx b hb')
    · rcases List.mem_cons.mp hb with rfl | hb'
      · exact absurd hkey.symm (hx a ha')
      · exact ih hxs ha' hb'

lemma aux_roots_pairwise (P : List Property)
    (H2 : P.Pairwise (fun p q => p.parentId = q.parentId → p.key ≠ q.key)) :
    (rootsOf P).Pairwise (fun a b => a.key ≠ b.key) := by
  have hsub : (rootsOf P).Pairwise (fun p q => p.parentId = q.parentId → p.key ≠ q.key) :=
    H2.sublist (List.filter_sublist P)
  apply hsub.imp_of_mem
  intro a b ha hb hr
  have hpa : a.parentId = none := by simpa using (List.mem_filter.mp ha).2
  have hpb : b.parentId = none := by simpa using (List.mem_filter.mp hb).2
  exact hr (by rw [hpa, hpb])

lemma aux_children_pairwise (P : List Property) (r : Property)
    (H2 : P.Pairwise (fun p q => p.parentId = q.parentId → p.key ≠ q.key)) :
    (childrenOf P r).Pairwise (fun a b => a.key ≠ b.key) := by
  have hsub : (childrenOf P r).Pairwise (fun p q => p.parentId = q.parentId → p.key ≠ q.key) :=
    H2.sublist (List.filter_sublist P)
  apply hsub.imp_of_mem
  intro a b ha hb hr
  have hpa : a.parentId = some r.id := by simpa using (List.mem_filter.mp ha).2
  have hpb : b.parentId = some r.id := by simpa using (List.mem_filter.mp hb).2
  exact hr (by rw [hpa, hpb])

lemma aux_objSet_append {α : Type} (acc : List (String × α)) (k : String) (v : α)
    (h : ∀ kv ∈ acc, kv.1 ≠ k) : jsObjSet acc k v = acc ++ [(k, v)] := by
  unfold jsObjSet
  rw [if_neg]
  simp only [List.any_eq_true, not_exists, not_and, beq_iff_eq]
  intro kv hkv
  exact fun hk => h kv hkv hk

lemma aux_foldl_objSet (f : Property → SchemaProperty) :
    ∀ (l : List Property) (acc : List (String × SchemaProperty)),
      l.Pairwise (fun a b => a.key ≠ b.key) →
      (∀ p ∈ l, ∀ kv ∈ acc, kv.1 ≠ p.key) →
      l.foldl (fun acc p => jsObjSet acc p.key (f p)) acc =
        acc ++ l.map (fun p => (p.key, f p)) := by
  intro l
  induction l with
  | nil => simp
  | cons a rest ih =>
    intro acc hpair hdisj
    rcases List.pairwise_cons.mp hpair with ⟨ha, hrest⟩
    rw [List.foldl_cons,
      aux_objSet_append acc a.key (f a)
        (fun kv hkv => hdisj a (List.mem_cons_self a rest) kv hkv)]
    rw [ih (acc ++ [(a.key, f a)]) hrest ?_]
    · simp
    · intro p hp kv hkv
      rcases List.mem_append.mp hkv with h1 | h2
      · exact hdisj p (List.mem_cons_of_mem a hp) kv h1
      · have : kv = (a.key, f a) := by simpa using h2
        rw [this]
        exact ha p hp

lemma aux_req_contains {l : List Property}
    (hpair : l.Pairwise (fun a b => a.key ≠ b.key)) {r : Property} (hr : r ∈ l) :
    ((l.filter (fun p => p.required)).map (fun p => p.key)).contains r.key = r.required := by
  cases hreq : r.required
  · rw [Bool.eq_false_iff]
    intro hcont
    rw [List.elem_iff] at hcont
    simp only [List.mem_map, List.mem_filter] at hcont
    rcases hcont with ⟨p, ⟨hpmem, hpreq⟩, hpkey⟩
    have : p = r := aux_key_unique hpair hpmem hr hpkey
    rw [this] at hpreq
    rw [hreq] at hpreq
    cases hpreq
  · rw [List.elem_iff]
    simp only [List.mem_map, List.mem_filter]
    exact ⟨r, ⟨hr, hreq⟩, rfl⟩

/-! ### Round-trip stage 2: closed form of `propertiesToSchema` -/

lemma aux_leaf_sp (P : List Property)
    (H1 : ∀ p ∈ P, jsTrim p.key ≠ "")
    (H3 : (P.map Property.id).Nodup)
    (H4 : ∀ p ∈ P, p.parentId = none ∨
      ∃ q ∈ P, p.parentId = some q.id ∧ q.type = .object ∧ q.parentId = none)
    (H6 : ∀ p ∈ P, p.items = none)
    (c : Property) (hc : c ∈ P) (hcpid : c.parentId ≠ none) (g : Nat) :
    propertyToSchemaProperty (g + 1) c P = leafOf c := by
  rw [propertyToSchemaProperty]
  have hkids := aux_no_grandchildren P H3 H4 c hc hcpid
  rw [aux_children_filter P c H1, hkids]
  rw [H6 c hc]
  unfold leafOf descrOf dfltOf
  by_cases hobj : c.type = .object
  · by_cases harr : c.type = .array
    · rw [hobj] at harr; cases harr
    · simp [hobj, harr]
  · by_cases harr : c.type = .array
    · simp [hobj, harr]
    · simp [hobj, harr]

lemma aux_root_sp (P : List Property)
    (H1 : ∀ p ∈ P, jsTrim p.key ≠ "")
    (H2 : P.Pairwise (fun p q => p.parentId = q.parentId → p.key ≠ q.key))
    (H3 : (P.map Property.id).Nodup)
    (H4 : ∀ p ∈ P, p.parentId = none ∨
      ∃ q ∈ P, p.parentId = some q.id ∧ q.type = .object ∧ q.parentId = none)
    (H6 : ∀ p ∈ P, p.items = none)
    (r : Property) (hr : r ∈ P) (g : Nat) :
    propertyToSchemaProperty (g + 2) r P = rootSPOf P r := by
  rw [show g + 2 = (g + 1) + 1 from rfl, propertyToSchemaProperty]
  rw [aux_children_filter P r H1]
  rw [H6 r hr]
  have hmap : (childrenOf P r).foldl
      (fun acc np => jsObjSet acc np.key (propertyToSchemaProperty (g + 1) np P)) [] =
      (childrenOf P r).map (fun c => (c.key, leafOf c)) := by
    rw [aux_foldl_objSet _ (childrenOf P r) [] (aux_children_pairwise P r H2) (by simp)]
    simp only [List.nil_append]
    apply List.map_congr_left
    intro c hcmem
    have hcP : c ∈ P := (List.mem_filter.mp hcmem).1
    have hcpid : c.parentId ≠ none := by
      have := (List.mem_filter.mp hcmem).2
      simp only [beq_iff_eq] at this
      rw [this]
      simp
    rw [aux_leaf_sp P H1 H3 H4 H6 c hcP hcpid g]
  unfold rootSPOf descrOf dfltOf reqKidsOf
  by_cases hobj : r.type = .object
  · by_cases hkids : (childrenOf P r) = []
    · simp [hobj, hkids]
    · have hne : (childrenOf P r).isEmpty = false := by
        cases hcs : childrenOf P r with
        | nil => exact absurd hcs hkids
        | cons a l => rfl
      have harr : r.type ≠ .array := by rw [hobj]; simp
      have hvalid : (childrenOf P r).filter hasValidKey = childrenOf P r := by
        rw [List.filter_eq_self]
        intro c hcmem
        exact aux_hasValidKey_of c (H1 c (List.mem_filter.mp hcmem).1)
      simp only [hobj, harr, hne, if_true, if_false]
      simp only [hvalid, hmap]
      simp only [hne, Bool.not_false, Bool.and_true, if_true, beq_self_eq_true,
        Bool.true_and, Bool.false_eq_true, if_false, reduceIte]
      simp [hne]
      by_cases hallreq : ∀ a ∈ childrenOf P r, a.required = false
      · have hnex : ¬ ∃ x ∈ childrenOf P r, x.required = true := by
          rintro ⟨x, hx, hreq⟩
          rw [hallreq x hx] at hreq
          cases hreq
        rw [if_pos hallreq, if_neg hnex]
      · have hex : ∃ x ∈ childrenOf P r, x.required = true := by
          push_neg at hallreq
          rcases hallreq with ⟨x, hx, hreq⟩
          exact ⟨x, hx, by simpa using hreq⟩
        rw [if_neg hallreq, if_pos hex]
  · have hobj' : (r.type == PropertyType.object) = false := by
      simp [hobj]
    by_cases harr : r.type = .array
    · simp [hobj, harr, hobj']
    · simp [hobj, harr, hobj']

lemma aux_schema_shape (P : List Property)
    (H1 : ∀ p ∈ P, jsTrim p.key ≠ "")
    (H2 : P.Pairwise (fun p q => p.parentId = q.parentId → p.key ≠ q.key))
    (H3 : (P.map Property.id).Nodup)
    (H4 : ∀ p ∈ P, p.parentId = none ∨
      ∃ q ∈ P, p.parentId = some q.id ∧ q.type = .object ∧ q.parentId = none)
    (H6 : ∀ p ∈ P, p.items = none)
    (H7 : ∀ p ∈ P, p.id ≠ "") :
    propertiesToSchema P = schemaOf P := by
  unfold propertiesToSchema
  rw [aux_roots_filter P H1 H4 H7]
  dsimp only
  by_cases hroots : rootsOf P = []
  · rw [hroots]
    unfold schemaOf reqRootsOf
    rw [hroots]
    simp
  · have hne : (rootsOf P).isEmpty = false := by
      cases hcs : rootsOf P with
      | nil => exact absurd hcs hroots
      | cons a l => rfl
    rw [hne]
    simp only [Bool.false_eq_true, if_false]
    have hvalid : (rootsOf P).filter hasValidKey = rootsOf P := by
      rw [List.filter_eq_self]
      intro r hrmem
      exact aux_hasValidKey_of r (H1 r (List.mem_filter.mp hrmem).1)
    rw [hvalid]
    obtain ⟨n, hn⟩ : ∃ n, P.length = n + 1 := by
      rcases hcs : rootsOf P with _ | ⟨a, l⟩
      · exact absurd hcs hroots
      · have : a ∈ P := by
          have : a ∈ rootsOf P := by rw [hcs]; exact List.mem_cons_self a l
          exact (List.mem_filter.mp this).1
        rcases P with _ | ⟨b, Q⟩
        · cases this
        · exact ⟨Q.length, rfl⟩
    have hmap : (rootsOf P).foldl
        (fun acc p => jsObjSet acc p.key (propertyToSchemaProperty (P.length + 1) p P)) [] =
        (rootsOf P).map (fun r => (r.key, rootSPOf P r)) := by
      rw [aux_foldl_objSet _ (rootsOf P) [] (aux_roots_pairwise P H2) (by simp)]
      simp only [List.nil_append]
      apply List.map_congr_left
      intro r hrmem
      have hrP : r ∈ P := (List.mem_filter.mp hrmem).1
      rw [hn, show n + 1 + 1 = n + 2 from rfl, aux_root_sp P H1 H2 H3 H4 H6 r hrP n]
    rw [hmap]
    unfold schemaOf reqRootsOf
    by_cases hreq : ((rootsOf P).filter (fun p => p.required)).map (fun p => p.key) = []
    · simp [hreq]
    · simp [hreq]

/-! ### Round-trip stage 3: closed form of `schemaToProperties` -/

lemma aux_descrOf_getD (p : Property) : (descrOf p).getD "" = p.description := by
  unfold descrOf
  by_cases h : p.description == ""
  · simp only [h, if_true]
    have : p.description = "" := by simpa using h
    rw [this]
    rfl
  · simp [h]

lemma aux_stpNested_eq (gen : Nat → String) (spReq : Option (List String)) (rootId : String) :
    ∀ (cs : List Property) (k : Nat),
      stpNested (cs.map (fun c => (c.key, leafOf c))) spReq rootId gen k =
        (stpNestedExp gen spReq rootId cs k, k + cs.length) := by
  intro cs
  induction cs with
  | nil => intro k; rfl
  | cons c rest ih =>
    intro k
    rw [List.map_cons]
    simp only [stpNested, stpNestedExp]
    rw [ih (k + 1)]
    unfold leafOf
    simp only [SchemaProperty.key, SchemaProperty.description, SchemaProperty.type,
      SchemaProperty.default]
    rw [aux_descrOf_getD]
    simp only [Option.getD_some, Prod.mk.injEq]
    constructor
    · rw [ite_self]
    · simp [List.length_cons]
      omega

lemma aux_stpEntry_eq (P : List Property) (gen : Nat → String)
    (reqOpt : Option (List String)) (r : Property) (k : Nat) :
    stpEntry r.key (rootSPOf P r) reqOpt none gen k =
      ((if r.type == PropertyType.object && !(childrenOf P r).isEmpty then
          stpNestedExp gen (rootSPOf P r).required (gen k) (childrenOf P r) (k + 1)
        else []) ++
        [Property.mk (gen k) r.key r.description r.type
          (match dfltOf r with | some d => some d | none => some JsonValue.null)
          (match reqOpt with | some l => l.contains r.key | none => false)
          none
          (if r.type == PropertyType.object && !(childrenOf P r).isEmpty then
            stpNestedExp gen (rootSPOf P r).required (gen k) (childrenOf P r) (k + 1)
          else []) none],
       k + entryWeight P r) := by
  unfold stpEntry
  dsimp only
  by_cases hobj : r.type = PropertyType.object
  · by_cases hkids : (childrenOf P r).isEmpty
    · have hsp : (rootSPOf P r).properties = none := by
        unfold rootSPOf
        simp [SchemaProperty.properties, hkids]
      have hat : ((rootSPOf P r).type == some PropertyType.array) = false := by
        unfold rootSPOf
        simp [SchemaProperty.type, hobj]
      have hot : ((rootSPOf P r).type == some PropertyType.object) = true := by
        unfold rootSPOf
        simp [SchemaProperty.type, hobj]
      rw [hot, hsp, hat]
      simp only [if_true, Bool.false_eq_true, if_false]
      unfold rootSPOf entryWeight
      simp only [SchemaProperty.key, SchemaProperty.description, SchemaProperty.type,
        SchemaProperty.default, SchemaProperty.items]
      rw [aux_descrOf_getD]
      simp [hkids, hobj, ite_self]
    · have hkb : (childrenOf P r).isEmpty = false := Bool.eq_false_iff.mpr hkids
      have hsp : (rootSPOf P r).properties =
          some ((childrenOf P r).map (fun c => (c.key, leafOf c))) := by
        unfold rootSPOf
        simp [SchemaProperty.properties, hobj, hkb]
      have hat : ((rootSPOf P r).type == some PropertyType.array) = false := by
        unfold rootSPOf
        simp [SchemaProperty.type, hobj]
      have hot : ((rootSPOf P r).type == some PropertyType.object) = true := by
        unfold rootSPOf
        simp [SchemaProperty.type, hobj]
      rw [hot, hsp, hat]
      simp only [if_true, Bool.false_eq_true, if_false]
      rw [aux_stpNested_eq]
      have hw : entryWeight P r = 1 + (childrenOf P r).length := by
        unfold entryWeight
        simp [hobj, hkb]
      rw [hw]
      conv_rhs => rw [show (r.type == PropertyType.object && !(childrenOf P r).isEmpty) = true
        from by simp [hobj, hkb]]
      simp only [if_true]
      unfold rootSPOf
      simp only [SchemaProperty.key, SchemaProperty.description, SchemaProperty.type,
        SchemaProperty.default, SchemaProperty.items, SchemaProperty.required]
      rw [aux_descrOf_getD]
      simp only [Option.getD_some, Prod.mk.injEq]
      refine ⟨by rw [ite_self], by omega⟩
  · have hob : (r.type == PropertyType.object) = false := by simp [hobj]
    have hot : ((rootSPOf P r).type == some PropertyType.object) = false := by
      unfold rootSPOf
      simp [SchemaProperty.type, hobj]
    have hitems : (rootSPOf P r).items = none := by
      unfold rootSPOf
      simp [SchemaProperty.items]
    rw [hot, hitems]
    simp only [Bool.false_eq_true, if_false, hob, Bool.false_and]
    have hw : entryWeight P r = 1 := by
      unfold entryWeight
      simp [hob]
    rw [hw]
    cases hsptype : ((rootSPOf P r).type == some PropertyType.array) with
    | true =>
      simp only [if_true]
      unfold rootSPOf
      simp only [SchemaProperty.key, SchemaProperty.description, SchemaProperty.type,
        SchemaProperty.default]
      rw [aux_descrOf_getD]
      simp [ite_self]
    | false =>
      simp only [Bool.false_eq_true, if_false]
      unfold rootSPOf
      simp only [SchemaProperty.key, SchemaProperty.description, SchemaProperty.type,
        SchemaProperty.default]
      rw [aux_descrOf_getD]
      simp [ite_self]

lemma aux_stpEntries_eq (P : List Property) (gen : Nat → String)
    (reqOpt : Option (List String)) :
    ∀ (rs : List Property) (k : Nat),
      stpEntries (rs.map (fun r => (r.key, rootSPOf P r))) reqOpt none gen k =
        (stpEntriesExp P gen reqOpt rs k, k + stpWeights P rs) := by
  intro rs
  induction rs with
  | nil => intro k; rfl
  | cons r rest ih =>
    intro k
    rw [List.map_cons]
    simp only [stpEntries]
    rw [aux_stpEntry_eq P gen reqOpt r k]
    rw [ih (k + entryWeight P r)]
    simp only [stpEntriesExp, stpWeights, Prod.mk.injEq]
    constructor
    · rw [List.append_assoc]
      rfl
    · omega

lemma aux_stp_shape (P : List Property) (gen : Nat → String) :
    schemaToProperties (schemaOf P) none gen =
      stpEntriesExp P gen (schemaOf P).required (rootsOf P) 0 := by
  unfold schemaToProperties
  rw [if_neg (by unfold schemaOf; simp)]
  show (stpEntries ((rootsOf P).map (fun r => (r.key, rootSPOf P r)))
      (schemaOf P).required none gen 0).1 =
    stpEntriesExp P gen (schemaOf P).required (rootsOf P) 0
  rw [aux_stpEntries_eq]

/-! ### Round-trip stage 4: forests -/

lemma aux_forestAux_succ (f : Nat) (l : List Property) (q : Option String) :
    toForestAux (f + 1) l q =
      (l.filter (fun p => p.parentId == q)).map (fun p =>
        PTree.node p.key p.description p.type p.value p.required
          (toForestAux f l (some p.id))) := rfl

lemma aux_forestAux_empty (f : Nat) (l : List Property) (q : Option String)
    (h : l.filter (fun p => p.parentId == q) = []) : toForestAux f l q = [] := by
  cases f with
  | zero => rfl
  | succ g => rw [aux_forestAux_succ, h]; rfl

lemma aux_forest_drop_right (l₁ l₂ : List Property)
    (hprop : ∀ p₂ ∈ l₂, ∀ p₁ ∈ l₁, (p₂.parentId == some p₁.id) = false) :
    ∀ (f : Nat) (q : Option String), (∀ p₂ ∈ l₂, (p₂.parentId == q) = false) →
      toForestAux f (l₁ ++ l₂) q = toForestAux f l₁ q := by
  intro f
  induction f with
  | zero => intro q _; rfl
  | succ g ih =>
    intro q hq
    rw [aux_forestAux_succ, aux_forestAux_succ]
    rw [List.filter_append]
    rw [show l₂.filter (fun p => p.parentId == q) = [] from
      List.filter_eq_nil_iff.mpr (fun p hp => by rw [hq p hp]; simp)]
    rw [List.append_nil]
    apply List.map_congr_left
    intro p hp
    have hp₁ : p ∈ l₁ := (List.mem_filter.mp hp).1
    rw [ih (some p.id) (fun p₂ hp₂ => hprop p₂ hp₂ p hp₁)]

lemma aux_forest_drop_left (l₁ l₂ : List Property)
    (hprop : ∀ p₁ ∈ l₁, ∀ p₂ ∈ l₂, (p₁.parentId == some p₂.id) = false) :
    ∀ (f : Nat) (q : Option String), (∀ p₁ ∈ l₁, (p₁.parentId == q) = false) →
      toForestAux f (l₁ ++ l₂) q = toForestAux f l₂ q := by
  intro f
  induction f with
  | zero => intro q _; rfl
  | succ g ih =>
    intro q hq
    rw [aux_forestAux_succ, aux_forestAux_succ]
    rw [List.filter_append]
    rw [show l₁.filter (fun p => p.parentId == q) = [] from
      List.filter_eq_nil_iff.mpr (fun p hp => by rw [hq p hp]; simp)]
    rw [List.nil_append]
    apply List.map_congr_left
    intro p hp
    have hp₂ : p ∈ l₂ := (List.mem_filter.mp hp).1
    rw [ih (some p.id) (fun p₁ hp₁ => hprop p₁ hp₁ p hp₂)]

lemma aux_stpNestedExp_mem (gen : Nat → String) (spReq : Option (List String))
    (rootId : String) :
    ∀ (cs : List Property) (k : Nat) (p : Property),
      p ∈ stpNestedExp gen spReq rootId cs k →
      (∃ t, k ≤ t ∧ t < k + cs.length ∧ p.id = gen t) ∧ p.parentId = some rootId := by
  intro cs
  induction cs with
  | nil => intro k p hp; cases hp
  | cons c rest ih =>
    intro k p hp
    rcases List.mem_cons.mp hp with rfl | hmem
    · exact ⟨⟨k, le_refl k, by simp, rfl⟩, rfl⟩
    · rcases ih (k + 1) p hmem with ⟨⟨t, ht1, ht2, ht3⟩, hpid⟩
      exact ⟨⟨t, by omega, by simp [List.length_cons]; omega, ht3⟩, hpid⟩

lemma aux_entryWeight_pos (P : List Property) (r : Property) : 1 ≤ entryWeight P r := by
  unfold entryWeight
  split <;> omega

lemma aux_stpEntriesExp_mem (P : List Property) (gen : Nat → String)
    (reqOpt : Option (List String)) :
    ∀ (rs : List Property) (k : Nat) (p : Property),
      p ∈ stpEntriesExp P gen reqOpt rs k →
      (∃ t, k ≤ t ∧ p.id = gen t) ∧
        (p.parentId = none ∨ ∃ t', k ≤ t' ∧ p.parentId = some (gen t')) := by
  intro rs
  induction rs with
  | nil => intro k p hp; cases hp
  | cons r rest ih =>
    intro k p hp
    simp only [stpEntriesExp] at hp
    rcases List.mem_append.mp hp with hkid | hrest
    · by_cases hact : (r.type == PropertyType.object && !(childrenOf P r).isEmpty) = true
      · rw [if_pos hact] at hkid
        rcases aux_stpNestedExp_mem gen _ _ _ _ p hkid with ⟨⟨t, ht1, _, ht3⟩, hpid⟩
        exact ⟨⟨t, by omega, ht3⟩, Or.inr ⟨k, le_refl k, hpid⟩⟩
      · rw [if_neg hact] at hkid
        cases hkid
    · rcases List.mem_cons.mp hrest with rfl | hmem
      · exact ⟨⟨k, le_refl k, rfl⟩, Or.inl rfl⟩
      · rcases ih (k + entryWeight P r) p hmem with ⟨⟨t, ht1, ht3⟩, hpar⟩
        have hw := aux_entryWeight_pos P r
        refine ⟨⟨t, by omega, ht3⟩, ?_⟩
        rcases hpar with hnone | ⟨t', ht', hpid⟩
        · exact Or.inl hnone
        · exact Or.inr ⟨t', by omega, hpid⟩

lemma aux_valueBack (p : Property) (h1 : p.value ≠ none) (h2 : p.value ≠ some (.str "")) :
    (match dfltOf p with | some d => some d | none => some JsonValue.null) = p.value := by
  unfold dfltOf jsPresent
  cases hv : p.value with
  | none => exact absurd hv h1
  | some v =>
    cases v with
    | null => simp
    | str s =>
      by_cases hs : s = ""
      · rw [hs] at hv; exact absurd hv h2
      · have : (match some (JsonValue.str s) with
            | none => false
            | some JsonValue.null => false
            | some (JsonValue.str "") => false
            | some _ => true) = true := by
          cases hc : s == "" with
          | true => exact absurd (by simpa using hc) hs
          | false =>
            split
            · rename_i heq; cases heq
            · rename_i heq; cases heq
            · rename_i heq
              have h' : JsonValue.str s = JsonValue.str "" := by injection heq
              have : s = "" := by injection h'
              exact absurd this hs
            · rfl
        rw [this]
        simp
    | num n => simp
    | bool b => simp
    | arr xs => simp
    | obj fs => simp
    | bigint n => simp

lemma aux_children_of_nonobject (P : List Property)
    (H3 : (P.map Property.id).Nodup)
    (H4 : ∀ p ∈ P, p.parentId = none ∨
      ∃ q ∈ P, p.parentId = some q.id ∧ q.type = .object ∧ q.parentId = none)
    (r : Property) (hr : r ∈ P) (hobj : r.type ≠ .object) :
    childrenOf P r = [] := by
  unfold childrenOf
  rw [List.filter_eq_nil_iff]
  intro c hc
  simp only [beq_iff_eq]
  intro hcpid
  rcases H4 c hc with hnone | ⟨q, hq, hpid, hqobj, _⟩
  · rw [hnone] at hcpid; cases hcpid
  · rw [hpid] at hcpid
    have : q = r := aux_same_id H3 hq hr (Option.some.inj hcpid)
    rw [this] at hqobj
    exact hobj hqobj

lemma aux_mk_key (i k d : String) (t : PropertyType) (v : Option JsonValue) (r : Bool)
    (pid : Option String) (ps : List Property) (it : Option Property) :
    (Property.mk i k d t v r pid ps it).key = k := rfl

lemma aux_mk_description (i k d : String) (t : PropertyType) (v : Option JsonValue) (r : Bool)
    (pid : Option String) (ps : List Property) (it : Option Property) :
    (Property.mk i k d t v r pid ps it).description = d := rfl

lemma aux_mk_type (i k d : String) (t : PropertyType) (v : Option JsonValue) (r : Bool)
    (pid : Option String) (ps : List Property) (it : Option Property) :
    (Property.mk i k d t v r pid ps it).type = t := rfl

lemma aux_mk_value (i k d : String) (t : PropertyType) (v : Option JsonValue) (r : Bool)
    (pid : Option String) (ps : List Property) (it : Option Property) :
    (Property.mk i k d t v r pid ps it).value = v := rfl

lemma aux_mk_required (i k d : String) (t : PropertyType) (v : Option JsonValue) (r : Bool)
    (pid : Option String) (ps : List Property) (it : Option Property) :
    (Property.mk i k d t v r pid ps it).required = r := rfl

lemma aux_stpNestedExp_nodes (gen : Nat → String) (spReq : Option (List String))
    (rootId : String) :
    ∀ (cs : List Property) (k : Nat),
      (∀ c ∈ cs, c.value ≠ none ∧ c.value ≠ some (.str "")) →
      (∀ c ∈ cs, (match spReq with
        | some l => l.contains c.key
        | none => false) = c.required) →
      (stpNestedExp gen spReq rootId cs k).map (fun c =>
        PTree.node c.key c.description c.type c.value c.required []) =
      cs.map (fun c =>
        PTree.node c.key c.description c.type c.value c.required []) := by
  intro cs
  induction cs with
  | nil => intro k _ _; rfl
  | cons c rest ih =>
    intro k hval hreq
    simp only [stpNestedExp, List.map_cons]
    rw [ih (k + 1) (fun x hx => hval x (List.mem_cons_of_mem c hx))
      (fun x hx => hreq x (List.mem_cons_of_mem c hx))]
    have hv := hval c (List.mem_cons_self c rest)
    have hr := hreq c (List.mem_cons_self c rest)
    simp only [aux_mk_key, aux_mk_description, aux_mk_type, aux_mk_value, aux_mk_required]
    rw [aux_valueBack c hv.1 hv.2, hr]

lemma aux_mk_id (i k d : String) (t : PropertyType) (v : Option JsonValue) (r : Bool)
    (pid : Option String) (ps : List Property) (it : Option Property) :
    (Property.mk i k d t v r pid ps it).id = i := rfl

lemma aux_mk_parentId (i k d : String) (t : PropertyType) (v : Option JsonValue) (r : Bool)
    (pid : Option String) (ps : List Property) (it : Option Property) :
    (Property.mk i k d t v r pid ps it).parentId = pid := rfl

lemma aux_expForest_map (P : List Property) : ∀ rs : List Property,
    expForest P rs = rs.map (fun r =>
      PTree.node r.key r.description r.type r.value r.required
        ((childrenOf P r).map (fun c =>
          PTree.node c.key c.description c.type c.value c.required []))) := by
  intro rs
  induction rs with
  | nil => rfl
  | cons r rest ih =>
    simp only [expForest, List.map_cons]
    rw [ih]

lemma aux_forest_append (l₁ l₂ : List Property)
    (h12 : ∀ p₁ ∈ l₁, ∀ p₂ ∈ l₂, (p₁.parentId == some p₂.id) = false)
    (h21 : ∀ p₂ ∈ l₂, ∀ p₁ ∈ l₁, (p₂.parentId == some p₁.id) = false)
    (f : Nat) (q : Option String) :
    toForestAux f (l₁ ++ l₂) q = toForestAux f l₁ q ++ toForestAux f l₂ q := by
  cases f with
  | zero => rfl
  | succ g =>
    rw [aux_forestAux_succ, aux_forestAux_succ, aux_forestAux_succ, List.filter_append,
      List.map_append]
    congr 1
    · apply List.map_congr_left
      intro p hp
      have hp₁ : p ∈ l₁ := (List.mem_filter.mp hp).1
      rw [aux_forest_drop_right l₁ l₂ h21 g (some p.id) (fun p₂ hp₂ => h21 p₂ hp₂ p hp₁)]
    · apply List.map_congr_left
      intro p hp
      have hp₂ : p ∈ l₂ := (List.mem_filter.mp hp).1
      rw [aux_forest_drop_left l₁ l₂ h12 g (some p.id) (fun p₁ hp₁ => h12 p₁ hp₁ p hp₂)]

lemma aux_root_required (P : List Property)
    (H2 : P.Pairwise (fun p q => p.parentId = q.parentId → p.key ≠ q.key))
    {r : Property} (hr : r ∈ rootsOf P) :
    (match (schemaOf P).required with
      | some l => l.contains r.key
      | none => false) = r.required := by
  have hacc : (schemaOf P).required =
      if reqRootsOf P = [] then none else some (reqRootsOf P) := rfl
  rw [hacc]
  by_cases h : reqRootsOf P = []
  · rw [if_pos h]
    cases hreq : r.required with
    | false => rfl
    | true =>
      exfalso
      have hmem : r.key ∈ reqRootsOf P := by
        unfold reqRootsOf
        exact List.mem_map.mpr ⟨r, List.mem_filter.mpr ⟨hr, hreq⟩, rfl⟩
      rw [h] at hmem
      cases hmem
  · rw [if_neg h]
    exact aux_req_contains (aux_roots_pairwise P H2) hr

lemma aux_kid_required (P : List Property) (r : Property)
    (H2 : P.Pairwise (fun p q => p.parentId = q.parentId → p.key ≠ q.key))
    (hact : (r.type == PropertyType.object && !(childrenOf P r).isEmpty) = true)
    {c : Property} (hc : c ∈ childrenOf P r) :
    (match (rootSPOf P r).required with
      | some l => l.contains c.key
      | none => false) = c.required := by
  have hacc : (rootSPOf P r).required =
      if r.type == PropertyType.object && !(childrenOf P r).isEmpty
          && !(reqKidsOf P r).isEmpty then some (reqKidsOf P r) else none := rfl
  rw [hacc]
  by_cases hne : (reqKidsOf P r).isEmpty = true
  · rw [if_neg (by rw [hact, hne]; decide)]
    cases hreq : c.required with
    | false => rfl
    | true =>
      exfalso
      have hmem : c.key ∈ reqKidsOf P r := by
        unfold reqKidsOf
        exact List.mem_map.mpr ⟨c, List.mem_filter.mpr ⟨hc, hreq⟩, rfl⟩
      have hnil : reqKidsOf P r = [] := by
        cases hl : reqKidsOf P r with
        | nil => rfl
        | cons a l => rw [hl] at hne; cases hne
      rw [hnil] at hmem
      cases hmem
  · have hf : (reqKidsOf P r).isEmpty = false := Bool.eq_false_iff.mpr hne
    rw [if_pos (by rw [hact, hf]; decide)]
    exact aux_req_contains (aux_children_pairwise P r H2) hc

lemma aux_block_mem (P : List Property) (gen : Nat → String) (r : Property)
    (k : Nat) (key d : String) (ty : PropertyType) (v : Option JsonValue) (b : Bool)
    (ps : List Property) :
    ∀ p ∈ (if r.type == PropertyType.object && !(childrenOf P r).isEmpty then
        stpNestedExp gen (rootSPOf P r).required (gen k) (childrenOf P r) (k + 1)
      else []) ++ [Property.mk (gen k) key d ty v b none ps none],
      (∃ t, k ≤ t ∧ t < k + entryWeight P r ∧ p.id = gen t) ∧
        (p.parentId = none ∨ p.parentId = some (gen k)) := by
  intro p hp
  rcases List.mem_append.mp hp with hkid | hroot
  · by_cases hact : (r.type == PropertyType.object && !(childrenOf P r).isEmpty) = true
    · rw [if_pos hact] at hkid
      rcases aux_stpNestedExp_mem gen _ _ _ _ p hkid with ⟨⟨t, ht1, ht2, ht3⟩, hpid⟩
      have hw : entryWeight P r = 1 + (childrenOf P r).length := by
        unfold entryWeight
        rw [if_pos hact]
      exact ⟨⟨t, by omega, by omega, ht3⟩, Or.inr hpid⟩
    · rw [if_neg hact] at hkid
      cases hkid
  · have hp' : p = Property.mk (gen k) key d ty v b none ps none := by simpa using hroot
    subst hp'
    have hw := aux_entryWeight_pos P r
    exact ⟨⟨k, le_refl k, by omega, rfl⟩, Or.inl rfl⟩

lemma aux_cross12 (P : List Property) (gen : Nat → String) (Hgen : Function.Injective gen)
    (r : Property) (rest : List Property) (reqOpt : Option (List String))
    (k : Nat) (key d : String) (ty : PropertyType) (v : Option JsonValue) (b : Bool)
    (ps : List Property) :
    ∀ p₁ ∈ (if r.type == PropertyType.object && !(childrenOf P r).isEmpty then
        stpNestedExp gen (rootSPOf P r).required (gen k) (childrenOf P r) (k + 1)
      else []) ++ [Property.mk (gen k) key d ty v b none ps none],
      ∀ p₂ ∈ stpEntriesExp P gen reqOpt rest (k + entryWeight P r),
      (p₁.parentId == some p₂.id) = false := by
  intro p₁ hp₁ p₂ hp₂
  rcases aux_block_mem P gen r k key d ty v b ps p₁ hp₁ with ⟨_, hpid⟩
  rcases aux_stpEntriesExp_mem P gen reqOpt rest (k + entryWeight P r) p₂ hp₂
    with ⟨⟨t, ht1, htid⟩, _⟩
  have hw := aux_entryWeight_pos P r
  rcases hpid with hnone | hsome
  · rw [hnone]
    rfl
  · rw [hsome, htid]
    rw [Bool.eq_false_iff]
    intro hc
    have hkt : k = t := Hgen (Option.some.inj (eq_of_beq hc))
    omega

lemma aux_cross21 (P : List Property) (gen : Nat → String) (Hgen : Function.Injective gen)
    (r : Property) (rest : List Property) (reqOpt : Option (List String))
    (k : Nat) (key d : String) (ty : PropertyType) (v : Option JsonValue) (b : Bool)
    (ps : List Property) :
    ∀ p₂ ∈ stpEntriesExp P gen reqOpt rest (k + entryWeight P r),
      ∀ p₁ ∈ (if r.type == PropertyType.object && !(childrenOf P r).isEmpty then
        stpNestedExp gen (rootSPOf P r).required (gen k) (childrenOf P r) (k + 1)
      else []) ++ [Property.mk (gen k) key d ty v b none ps none],
      (p₂.parentId == some p₁.id) = false := by
  intro p₂ hp₂ p₁ hp₁
  rcases aux_block_mem P gen r k key d ty v b ps p₁ hp₁ with ⟨⟨t, ht1, ht2, htid⟩, _⟩
  rcases aux_stpEntriesExp_mem P gen reqOpt rest (k + entryWeight P r) p₂ hp₂
    with ⟨_, hpar⟩
  rcases hpar with hnone | ⟨t', ht', hpid⟩
  · rw [hnone]
    rfl
  · rw [hpid, htid]
    rw [Bool.eq_false_iff]
    intro hc
    have htt : t' = t := Hgen (Option.some.inj (eq_of_beq hc))
    omega

lemma aux_block_forest (P : List Property) (gen : Nat → String)
    (H2 : P.Pairwise (fun p q => p.parentId = q.parentId → p.key ≠ q.key))
    (H3 : (P.map Property.id).Nodup)
    (H4 : ∀ p ∈ P, p.parentId = none ∨
      ∃ q ∈ P, p.parentId = some q.id ∧ q.type = .object ∧ q.parentId = none)
    (H5 : ∀ p ∈ P, p.value ≠ none ∧ p.value ≠ some (.str ""))
    (Hgen : Function.Injective gen)
    (r : Property) (hrP : r ∈ P) (k g : Nat) (ps : List Property) :
    toForestAux (g + 2)
      ((if r.type == PropertyType.object && !(childrenOf P r).isEmpty then
          stpNestedExp gen (rootSPOf P r).required (gen k) (childrenOf P r) (k + 1)
        else []) ++
        [Property.mk (gen k) r.key r.description r.type r.value r.required none ps none])
      none =
    [PTree.node r.key r.description r.type r.value r.required
      ((childrenOf P r).map (fun c =>
        PTree.node c.key c.description c.type c.value c.required []))] := by
  by_cases hact : (r.type == PropertyType.object && !(childrenOf P r).isEmpty) = true
  · rw [if_pos hact]
    have hkidmem := aux_stpNestedExp_mem gen (rootSPOf P r).required (gen k)
      (childrenOf P r) (k + 1)
    have hinner : toForestAux (g + 1)
        (stpNestedExp gen (rootSPOf P r).required (gen k) (childrenOf P r) (k + 1) ++
          [Property.mk (gen k) r.key r.description r.type r.value r.required none ps none])
        (some (gen k)) =
        (childrenOf P r).map (fun c =>
          PTree.node c.key c.description c.type c.value c.required []) := by
      have hfilt1 : (stpNestedExp gen (rootSPOf P r).required (gen k) (childrenOf P r)
          (k + 1)).filter (fun p => p.parentId == some (gen k)) =
          stpNestedExp gen (rootSPOf P r).required (gen k) (childrenOf P r) (k + 1) := by
        rw [List.filter_eq_self]
        intro p hp
        rcases hkidmem p hp with ⟨_, hpid⟩
        rw [hpid]
        exact beq_self_eq_true _
      have hfilt2 : ([Property.mk (gen k) r.key r.description r.type r.value r.required
          none ps none].filter (fun p => p.parentId == some (gen k))) = [] := rfl
      rw [aux_forestAux_succ, List.filter_append, hfilt1, hfilt2, List.append_nil]
      have hstep : ∀ p ∈ stpNestedExp gen (rootSPOf P r).required (gen k)
          (childrenOf P r) (k + 1),
          PTree.node p.key p.description p.type p.value p.required
            (toForestAux g
              (stpNestedExp gen (rootSPOf P r).required (gen k) (childrenOf P r) (k + 1) ++
                [Property.mk (gen k) r.key r.description r.type r.value r.required none
                  ps none])
              (some p.id)) =
          PTree.node p.key p.description p.type p.value p.required [] := by
        intro p hp
        rcases hkidmem p hp with ⟨⟨t, ht1, ht2, htid⟩, _⟩
        rw [aux_forestAux_empty g _ (some p.id) ?_]
        rw [List.filter_eq_nil_iff]
        intro x hx
        rcases List.mem_append.mp hx with hxk | hxr
        · rcases hkidmem x hxk with ⟨_, hxpid⟩
          rw [hxpid, htid]
          intro hcon
          have hkt : k = t := Hgen (Option.some.inj (eq_of_beq hcon))
          omega
        · have hx' : x = Property.mk (gen k) r.key r.description r.type r.value r.required
              none ps none := by simpa using hxr
          subst hx'
          intro hcon
          exact Bool.noConfusion hcon
      rw [List.map_congr_left hstep]
      exact aux_stpNestedExp_nodes gen (rootSPOf P r).required (gen k) (childrenOf P r)
        (k + 1) (fun c hc => H5 c (List.mem_filter.mp hc).1)
        (fun c hc => aux_kid_required P r H2 hact hc)
    rw [show g + 2 = (g + 1) + 1 from rfl, aux_forestAux_succ]
    rw [List.filter_append]
    rw [show (stpNestedExp gen (rootSPOf P r).required (gen k) (childrenOf P r)
        (k + 1)).filter (fun p => p.parentId == none) = [] from
      List.filter_eq_nil_iff.mpr (fun p hp => by
        rcases hkidmem p hp with ⟨_, hpid⟩
        rw [hpid]
        intro hcon
        exact Bool.noConfusion hcon)]
    rw [List.nil_append]
    rw [show ([Property.mk (gen k) r.key r.description r.type r.value r.required none ps
        none].filter (fun p => p.parentId == none)) =
        [Property.mk (gen k) r.key r.description r.type r.value r.required none ps none]
      from rfl]
    rw [List.map_cons, List.map_nil]
    simp only [aux_mk_key, aux_mk_description, aux_mk_type, aux_mk_value, aux_mk_required,
      aux_mk_id]
    rw [hinner]
  · rw [if_neg hact, List.nil_append]
    have hkids : childrenOf P r = [] := by
      by_cases hobj : r.type = PropertyType.object
      · by_cases hemp : (childrenOf P r).isEmpty = true
        · cases hl : childrenOf P r with
          | nil => rfl
          | cons a l => rw [hl] at hemp; cases hemp
        · exfalso
          apply hact
          have h1 : (r.type == PropertyType.object) = true := by rw [hobj]; decide
          have h2 : (childrenOf P r).isEmpty = false := Bool.eq_false_iff.mpr hemp
          rw [h1, h2]
          decide
      · exact aux_children_of_nonobject P H3 H4 r hrP hobj
    rw [show g + 2 = (g + 1) + 1 from rfl, aux_forestAux_succ]
    rw [show ([Property.mk (gen k) r.key r.description r.type r.value r.required none ps
        none].filter (fun p => p.parentId == none)) =
        [Property.mk (gen k) r.key r.description r.type r.value r.required none ps none]
      from rfl]
    rw [List.map_cons, List.map_nil]
    simp only [aux_mk_key, aux_mk_description, aux_mk_type, aux_mk_value, aux_mk_required,
      aux_mk_id]
    rw [aux_forestAux_empty (g + 1)
      [Property.mk (gen k) r.key r.description r.type r.value r.required none ps none]
      (some (gen k)) rfl]
    rw [hkids]
    rfl

lemma aux_entries_forest (P : List Property) (gen : Nat → String)
    (H2 : P.Pairwise (fun p q => p.parentId = q.parentId → p.key ≠ q.key))
    (H3 : (P.map Property.id).Nodup)
    (H4 : ∀ p ∈ P, p.parentId = none ∨
      ∃ q ∈ P, p.parentId = some q.id ∧ q.type = .object ∧ q.parentId = none)
    (H5 : ∀ p ∈ P, p.value ≠ none ∧ p.value ≠ some (.str ""))
    (Hgen : Function.Injective gen) (g : Nat) :
    ∀ (rs : List Property) (k : Nat), (∀ r ∈ rs, r ∈ rootsOf P) →
      toForestAux (g + 2) (stpEntriesExp P gen (schemaOf P).required rs k) none =
        expForest P rs := by
  intro rs
  induction rs with
  | nil =>
    intro k _
    exact aux_forestAux_empty _ [] none rfl
  | cons r rest ih =>
    intro k hmem
    have hr : r ∈ rootsOf P := hmem r (List.mem_cons_self r rest)
    have hrP : r ∈ P := (List.mem_filter.mp hr).1
    simp only [stpEntriesExp]
    rw [aux_valueBack r (H5 r hrP).1 (H5 r hrP).2]
    rw [aux_root_required P H2 hr]
    rw [List.append_cons]
    rw [aux_forest_append _ _
      (aux_cross12 P gen Hgen r rest (schemaOf P).required k r.key r.description r.type
        r.value r.required _)
      (aux_cross21 P gen Hgen r rest (schemaOf P).required k r.key r.description r.type
        r.value r.required _)
      (g + 2) none]
    rw [aux_block_forest P gen H2 H3 H4 H5 Hgen r hrP k g _]
    rw [ih (k + entryWeight P r) (fun x hx => hmem x (List.mem_cons_of_mem r hx))]
    rfl

lemma aux_toForest_exp (P : List Property)
    (H3 : (P.map Property.id).Nodup)
    (H4 : ∀ p ∈ P, p.parentId = none ∨
      ∃ q ∈ P, p.parentId = some q.id ∧ q.type = .object ∧ q.parentId = none)
    (g : Nat) :
    toForestAux (g + 2) P none = expForest P (rootsOf P) := by
  rw [show g + 2 = (g + 1) + 1 from rfl, aux_forestAux_succ]
  rw [aux_expForest_map]
  have hfilter : P.filter (fun p => p.parentId == none) = rootsOf P := rfl
  rw [hfilter]
  apply List.map_congr_left
  intro r hrmem
  have hchild : toForestAux (g + 1) P (some r.id) =
      (childrenOf P r).map (fun c =>
        PTree.node c.key c.description c.type c.value c.required []) := by
    rw [aux_forestAux_succ]
    have hcf : P.filter (fun p => p.parentId == some r.id) = childrenOf P r := rfl
    rw [hcf]
    apply List.map_congr_left
    intro c hcmem
    have hcP : c ∈ P := (List.mem_filter.mp hcmem).1
    have hcpid : c.parentId ≠ none := by
      have hpp := (List.mem_filter.mp hcmem).2
      simp only [beq_iff_eq] at hpp
      rw [hpp]
      simp
    rw [aux_forestAux_empty g P (some c.id) (aux_no_grandchildren P H3 H4 c hcP hcpid)]
  rw [hchild]

/-- C1 (corrected): the round trip `schemaToProperties ∘ propertiesToSchema`
reproduces the id-free tree (key, description, type, value, required, and
parent/child structure) of a property collection only up to ONE level of
nesting.  Under the amended hypotheses — non-empty trimmed keys, unique sibling
keys, unique non-empty ids, every property a root or a direct child of an
object-typed root, every value present (not undefined, not null-literal, not
the empty string), no `items` schemas, and an injective id generator — the
round trip is the identity on the id-free forest.  (Deeper collections are NOT
restored: see the counterexample, where a depth-2 chain loses its grandchild,
refuting the claim's "nesting depth at most 10" scope.) -/
theorem c1_roundtrip_depth1 (P : List Property) (gen : Nat → String)
    (H1 : ∀ p ∈ P, jsTrim p.key ≠ "")
    (H2 : P.Pairwise (fun p q => p.parentId = q.parentId → p.key ≠ q.key))
    (H3 : (P.map Property.id).Nodup)
    (H4 : ∀ p ∈ P, p.parentId = none ∨
      ∃ q ∈ P, p.parentId = some q.id ∧ q.type = .object ∧ q.parentId = none)
    (H5 : ∀ p ∈ P, p.value ≠ none ∧ p.value ≠ some (.str ""))
    (H6 : ∀ p ∈ P, p.items = none)
    (H7 : ∀ p ∈ P, p.id ≠ "")
    (Hgen : Function.Injective gen) :
    toForest (schemaToProperties (propertiesToSchema P) none gen) = toForest P := by
  rw [aux_schema_shape P H1 H2 H3 H4 H6 H7]
  rw [aux_stp_shape P gen]
  by_cases hP : P = []
  · subst hP
    rfl
  · have hroots : rootsOf P ≠ [] := by
      intro hnil
      rcases hPc : P with _ | ⟨p, Q⟩
      · exact hP hPc
      · have hpP : p ∈ P := by rw [hPc]; exact List.mem_cons_self p Q
        rcases H4 p hpP with hnone | ⟨q, hq, _, _, hqroot⟩
        · have hmem : p ∈ rootsOf P := List.mem_filter.mpr ⟨hpP, by simp [hnone]⟩
          rw [hnil] at hmem
          cases hmem
        · have hmem : q ∈ rootsOf P := List.mem_filter.mpr ⟨hq, by simp [hqroot]⟩
          rw [hnil] at hmem
          cases hmem
    have hQne : stpEntriesExp P gen (schemaOf P).required (rootsOf P) 0 ≠ [] := by
      rcases hcs : rootsOf P with _ | ⟨a, l⟩
      · exact absurd hcs hroots
      · simp only [stpEntriesExp]
        intro hcontra
        have hlen := congrArg List.length hcontra
        simp only [List.length_append, List.length_cons, List.length_nil] at hlen
        omega
    obtain ⟨m, hm⟩ : ∃ m,
        (stpEntriesExp P gen (schemaOf P).required (rootsOf P) 0).length + 1 = m + 2 := by
      rcases hq : stpEntriesExp P gen (schemaOf P).required (rootsOf P) 0 with _ | ⟨a, l⟩
      · exact absurd hq hQne
      · exact ⟨l.length, by simp⟩
    obtain ⟨n, hn⟩ : ∃ n, P.length + 1 = n + 2 := by
      rcases hPc : P with _ | ⟨p, Q⟩
      · exact absurd hPc hP
      · exact ⟨Q.length, by simp⟩
    unfold toForest
    rw [hm, hn]
    rw [aux_entries_forest P gen H2 H3 H4 H5 Hgen m (rootsOf P) 0 (fun x hx => hx)]
    rw [aux_toForest_exp P H3 H4 n]

/-- Witness for C1: a concrete two-root collection with one nested child — the
round trip reproduces its id-free forest exactly. -/
theorem c1_roundtrip_depth1_witness :
    toForest (schemaToProperties (propertiesToSchema roundTripP) none roundTripGen) =
      toForest roundTripP := by
  apply c1_roundtrip_depth1
  · decide
  · decide
  · decide
  · decide
  · intro p hp
    simp only [roundTripP, List.mem_cons, List.not_mem_nil, or_false] at hp
    rcases hp with rfl | rfl | rfl
    · exact ⟨fun h => Option.noConfusion h,
        fun h => JsonValue.noConfusion (Option.some.inj h)⟩
    · exact ⟨fun h => Option.noConfusion h,
        fun h => JsonValue.noConfusion (Option.some.inj h)⟩
    · exact ⟨fun h => Option.noConfusion h,
        fun h => JsonValue.noConfusion (Option.some.inj h)⟩
  · intro p hp
    simp only [roundTripP, List.mem_cons, List.not_mem_nil, or_false] at hp
    rcases hp with rfl | rfl | rfl
    · rfl
    · rfl
    · rfl
  · decide
  · intro a b h
    unfold roundTripGen at h
    injection h with h2
    have hlen := congrArg List.length h2
    simpa using hlen

/-- Counterexample for C1 as stated: `deepP` satisfies every hypothesis of the
claim (non-empty trimmed keys, unique sibling keys, nesting depth 3 ≤ 10), yet
the round trip does not reproduce its id-free tree — `schemaToProperties`
rebuilds only one nesting level, so the grandchild `leaf` is dropped. -/
theorem c1_counterexample :
    (∀ p ∈ deepP, jsTrim p.key ≠ "") ∧
    deepP.Pairwise (fun p q => p.parentId = q.parentId → p.key ≠ q.key) ∧
    (∀ p ∈ deepP, (ancIds deepP.length deepP p.parentId).length + 1 ≤ 10) ∧
    toForest (schemaToProperties (propertiesToSchema deepP) none roundTripGen) ≠
      toForest deepP := by
  refine ⟨by decide, by decide, by decide, fun h => ?_⟩
  exact absurd (congrArg forestSize h) (by decide)
